import Mathlib

/-!
Verification of the cabinet-meeting orchestration engine.

This file gives a shallow embedding, in Lean 4, of the engine's core
components — the context compressor, the context retriever, the meeting
stage state machine with its budget/degradation policy, the stage
executors, the serialized completion scheduler and the meeting
summarizer — and proves or refutes the behavioural claims made about
them.

Modelling conventions:
* JavaScript strings are modelled as Lean `String`s, with all string
  processing performed on the underlying `List Char` by structurally
  recursive functions (Lean's built-in `String` traversals do not reduce
  inside the kernel).  JS `String.prototype.length` counts UTF-16 code
  units and `Array.from` counts code points; both are modelled as the
  code-point count, which agrees on the basic multilingual plane.
* JavaScript numbers are modelled as exact rationals `JQ` (an integer
  numerator with a positive natural denominator, not normalized).  The
  engine only ever adds, multiplies, divides by positive constants and
  compares these quantities, so exact rational arithmetic is a faithful
  model of the float arithmetic on the values that occur.  Lean's own
  `Rat` operations are `@[irreducible]` and hence unusable for concrete
  evaluation by `decide`.
* `Date.now()` / timestamps are threaded as explicit parameters.
* Calls to the external generation provider, to the persona store and to
  `Math.random`, and the JSON parsing of the BRAIN analysis, are
  abstracted as oracle parameters that are universally quantified in the
  theorems; everything else is translated from the source.
-/

namespace MyCabinet

/-! ## JS string primitives over `List Char` -/

/-- The character class of the JS regular-expression `\s` (whitespace),
including the Unicode spaces matched by JS. -/
def jsWhitespace (c : Char) : Bool :=
  c == ' ' || c == '\t' || c == '\n' || c == '\r' ||
  c == '\x0b' || c == '\x0c' ||
  c == ' ' || c == ' ' ||
  (' ' ≤ c && c ≤ ' ') ||
  c == ' ' || c == ' ' || c == ' ' ||
  c == ' ' || c == '　' || c == '﻿'

/-- `String.prototype.trim`: drop leading and trailing whitespace. -/
def jsTrimL (l : List Char) : List Char :=
  ((l.dropWhile jsWhitespace).reverse.dropWhile jsWhitespace).reverse

/-- The scanner of `collapseWs`: `prevWs` records whether the previous
character belonged to a whitespace run already replaced by one space. -/
def collapseWsAux : Bool → List Char → List Char
  | _, [] => []
  | prevWs, c :: t =>
    if jsWhitespace c then
      if prevWs then collapseWsAux true t
      else ' ' :: collapseWsAux true t
    else c :: collapseWsAux false t

/-- `content.replace(/\s+/g, ' ')`: collapse every whitespace run to one
space. -/
def collapseWs (l : List Char) : List Char := collapseWsAux false l

/-- Does `pre` occur at the start of `l`? (helper for JS `includes`). -/
def prefixAt : List Char → List Char → Bool
  | [], _ => true
  | _ :: _, [] => false
  | a :: s, b :: t => a == b && prefixAt s t

/-- JS `haystack.includes(needle)`: substring occurrence test. -/
def containsSub (needle : List Char) : List Char → Bool
  | [] => needle.isEmpty
  | c :: t => prefixAt needle (c :: t) || containsSub needle t

/-- JS `s.includes(sub)` on `String`s. -/
def jsIncludes (s sub : String) : Bool := containsSub sub.data s.data

/-- The fuelled scanner of `jsSplit`; the fuel starts at the input
length and each step consumes one fuel and at least one character, so
the zero-fuel fallback is unreachable. -/
def jsSplitFuel (s0 : Char) (srest : List Char) : Nat → List Char → List (List Char)
  | _, [] => [[]]
  | 0, l => [l]
  | fuel + 1, c :: t =>
    if prefixAt (s0 :: srest) (c :: t) then
      [] :: jsSplitFuel s0 srest fuel (t.drop srest.length)
    else
      match jsSplitFuel s0 srest fuel t with
      | [] => [[c]]
      | h :: r => (c :: h) :: r

/-- JS `s.split(sep)` for a non-empty separator `s0 :: srest`. -/
def jsSplit (s0 : Char) (srest : List Char) (l : List Char) : List (List Char) :=
  jsSplitFuel s0 srest l.length l

/-- JS `s.toLowerCase()` (on the characters that occur in the engine this
agrees with per-character lowercasing). -/
def jsToLower (l : List Char) : List Char := l.map Char.toLower

/-- JS `s.substring(0, n)` as a character list operation. -/
def jsTake (n : Nat) (l : List Char) : List Char := l.take n

/-- JS `s.length`, modelled as the code-point count. -/
def jsLen (s : String) : Nat := s.data.length

/-! ## JS numbers as exact rationals

`JQ p q` stands for the rational `p / q`.  Every constructor used below
keeps the denominator positive, and the comparisons are the usual
cross-multiplication tests, which are correct exactly when both
denominators are positive. -/

structure JQ where
  num : Int
  den : Nat
deriving DecidableEq, Repr

namespace JQ

/-- The rational literal `p / q`. -/
def lit (p : Int) (q : Nat) : JQ := ⟨p, q⟩

def ofNat (n : Nat) : JQ := ⟨n, 1⟩

def ofInt (i : Int) : JQ := ⟨i, 1⟩

def zero : JQ := ⟨0, 1⟩

def one : JQ := ⟨1, 1⟩

def add (a b : JQ) : JQ := ⟨a.num * b.den + b.num * a.den, a.den * b.den⟩

def sub (a b : JQ) : JQ := ⟨a.num * b.den - b.num * a.den, a.den * b.den⟩

def mul (a b : JQ) : JQ := ⟨a.num * b.num, a.den * b.den⟩

/-- Division by a positive natural constant (the only divisions the
engine performs). -/
def divNat (a : JQ) (n : Nat) : JQ := ⟨a.num, a.den * n⟩

/-- `a ≤ b` by cross multiplication (correct for positive denominators). -/
def le (a b : JQ) : Bool := a.num * (b.den : Int) ≤ b.num * (a.den : Int)

/-- `a < b` by cross multiplication (correct for positive denominators). -/
def lt (a b : JQ) : Bool := a.num * (b.den : Int) < b.num * (a.den : Int)

/-- JS `Math.min(a, b)`. -/
def jsMin (a b : JQ) : JQ := if le a b then a else b

/-- JS `Math.max(a, b)`. -/
def jsMax (a b : JQ) : JQ := if le a b then b else a

/-- JS truthiness of a number: `0` is falsy. -/
def truthy (a : JQ) : Bool := !(a.num == 0)

/-- Positive denominator: the invariant under which `le`/`lt` mean what
they say. -/
def Posden (a : JQ) : Prop := 0 < a.den

instance (a : JQ) : Decidable a.Posden := Nat.decLt 0 a.den

theorem le_trans {a b c : JQ} (hb : Posden b)
    (hab : le a b = true) (hbc : le b c = true) : le a c = true := by
  simp only [le, decide_eq_true_eq] at hab hbc ⊢
  have hb' : (0 : Int) < (b.den : Int) := by exact_mod_cast hb
  have h1 : a.num * (b.den : Int) * (c.den : Int) ≤ b.num * (a.den : Int) * (c.den : Int) := by
    by_cases hc : (0 : Int) ≤ (c.den : Int)
    · exact mul_le_mul_of_nonneg_right hab hc
    · omega
  have h2 : b.num * (c.den : Int) * (a.den : Int) ≤ c.num * (b.den : Int) * (a.den : Int) := by
    by_cases ha : (0 : Int) ≤ (a.den : Int)
    · exact mul_le_mul_of_nonneg_right hbc ha
    · omega
  have h3 : a.num * (c.den : Int) * (b.den : Int) ≤ c.num * (a.den : Int) * (b.den : Int) := by
    calc a.num * (c.den : Int) * (b.den : Int)
        = a.num * (b.den : Int) * (c.den : Int) := by ring
      _ ≤ b.num * (a.den : Int) * (c.den : Int) := h1
      _ = b.num * (c.den : Int) * (a.den : Int) := by ring
      _ ≤ c.num * (b.den : Int) * (a.den : Int) := h2
      _ = c.num * (a.den : Int) * (b.den : Int) := by ring
  exact le_of_mul_le_mul_right h3 hb'

theorem posden_add {a b : JQ} (ha : Posden a) (hb : Posden b) :
    Posden (add a b) := Nat.mul_pos ha hb

theorem posden_mul {a b : JQ} (ha : Posden a) (hb : Posden b) :
    Posden (mul a b) := Nat.mul_pos ha hb

theorem posden_sub {a b : JQ} (ha : Posden a) (hb : Posden b) :
    Posden (sub a b) := Nat.mul_pos ha hb

theorem posden_divNat {a : JQ} {n : Nat} (ha : Posden a) (hn : 0 < n) :
    Posden (divNat a n) := Nat.mul_pos ha hn

theorem posden_jsMin {a b : JQ} (ha : Posden a) (hb : Posden b) :
    Posden (jsMin a b) := by
  unfold jsMin; split <;> assumption

theorem posden_jsMax {a b : JQ} (ha : Posden a) (hb : Posden b) :
    Posden (jsMax a b) := by
  unfold jsMax; split <;> assumption

theorem posden_lit {p : Int} {q : Nat} (hq : 0 < q) : Posden (lit p q) := hq

end JQ

/-! ## Data model: messages

`models/index.ts`.  The only message metadata the engine itself reads is
the compression metadata, so `metadata` is modelled as an optional
`CompressedMeta`. -/

inductive MsgType
  | statement
  | question
  | response
  | perspective
  | elaborationRequest
  | system
  | compressed
deriving DecidableEq, Repr

/-- The `metadata` field of a `compressed` message
(`CompressedMessage.metadata` in `memory/types.ts`). -/
structure CompressedMeta where
  originalCount : Nat
  timeStart : String
  timeEnd : String
  compressionMethod : String
deriving DecidableEq, Repr

structure Message where
  id : String
  timestamp : String
  role : String
  type : MsgType
  content : String
  metadata : Option CompressedMeta := none
deriving DecidableEq, Repr

/-! ## Context Compressor (`services/memory/contextCompressor.ts`) -/

namespace ContextCompressor

def TOKEN_THRESHOLD : Nat := 8000

def PRESERVE_RECENT : Nat := 5

def PRESERVE_EARLY_SUMMARY : Nat := 3

/-- `Math.ceil(text.length / 4)`. -/
def estimateTokens (text : String) : Nat := (jsLen text + 3) / 4

def estimateTotalTokens (messages : List Message) : Nat :=
  messages.foldl (fun sum m => sum + estimateTokens m.content) 0

/-- `needsCompression`. -/
def needsCompression (messages : List Message) : Bool :=
  TOKEN_THRESHOLD < estimateTotalTokens messages

/-- `summarizeMessages`: the first 100 characters of each of the role's
messages, trimmed, empties dropped, joined with `" | "`. -/
def summarizeMessages (messages : List Message) : List Char :=
  let keyContents :=
    (messages.map (fun m => jsTrimL (jsTake 100 m.content.data))).filter
      (fun c => c.length ≠ 0)
  match keyContents with
  | [c] => c
  | cs => (cs.intersperse [' ', '|', ' ']).flatten

/-- Group the non-`system` messages by role, preserving the insertion
order of a JS `Map`. -/
def groupByRole (messages : List Message) : List (String × List Message) :=
  messages.foldl
    (fun acc m =>
      if m.type = .system then acc
      else if acc.any (fun p => p.1 = m.role) then
        acc.map (fun p => if p.1 = m.role then (p.1, p.2 ++ [m]) else p)
      else acc ++ [(m.role, [m])])
    []

/-- Does a trimmed line match `/^[-*•]\s+/` or `/^\d+\.\s+/`? -/
def isListLine (l : List Char) : Bool :=
  match l with
  | [] => false
  | c :: rest =>
    if c == '-' || c == '*' || c == '•' then
      match rest with
      | [] => false
      | d :: _ => jsWhitespace d
    else if c.isDigit then
      let digits := (c :: rest).takeWhile Char.isDigit
      let after := (c :: rest).drop digits.length
      match after with
      | '.' :: d :: _ => jsWhitespace d
      | _ => false
    else false

/-- `extractKeyPoints`: the first five bullet / numbered-list lines found
scanning the messages in order, joined with newlines. -/
def extractKeyPoints (messages : List Message) : List Char :=
  let keyPoints :=
    ((messages.map
        (fun m => (jsSplit '\n' [] m.content.data).map jsTrimL)).flatten.filter
      isListLine).take 5
  (keyPoints.intersperse ['\n']).flatten

/-- `compressMiddleSection`: the single synthetic `compressed` message.
`now` stands for the `Date.now()` / `toISOString()` pair read when the
message is constructed. -/
def compressMiddleSection (messages : List Message) (now : String) : Message :=
  let roleMessages := groupByRole messages
  let summaries := roleMessages.map
    (fun p => ('*' :: '*' :: p.1.data) ++ ('*' :: '*' :: ':' :: ' ' :: summarizeMessages p.2))
  let keyPoints := extractKeyPoints messages
  let timeStart := ((messages.head?).map (fun m => m.timestamp)).getD ""
  let timeEnd := ((messages.getLast?).map (fun m => m.timestamp)).getD ""
  { id := "compressed-" ++ now
    timestamp := now
    role := "SYSTEM"
    type := .compressed
    content := String.mk
      ("[早期讨论摘要]\n\n".data ++
        ((summaries.intersperse ['\n', '\n']).flatten) ++ '\n' :: '\n' ::
        (if keyPoints.length ≠ 0 then
          '\n' :: ("[关键要点]\n".data ++ keyPoints ++ ['\n'])
         else []))
    metadata := some
      { originalCount := messages.length
        timeStart := timeStart
        timeEnd := timeEnd
        compressionMethod := "role_aggregated" } }

/-- `compress`. -/
def compress (messages : List Message) (now : String) : List Message :=
  if messages.length ≤ PRESERVE_RECENT + 2 then messages
  else
    let earlySystemMessages := messages.filter
      (fun m => m.type = .system ∧ messages.indexOf m < PRESERVE_EARLY_SUMMARY)
    let middleMessages :=
      (messages.drop PRESERVE_EARLY_SUMMARY).take
        (messages.length - PRESERVE_RECENT - PRESERVE_EARLY_SUMMARY)
    let recentMessages := messages.drop (messages.length - PRESERVE_RECENT)
    if middleMessages.length ≠ 0 then
      earlySystemMessages ++ compressMiddleSection middleMessages now :: recentMessages
    else
      earlySystemMessages ++ recentMessages

/-- `compressIfNeeded` (the meeting's message list is passed directly). -/
def compressIfNeeded (messages : List Message) (now : String) : List Message :=
  if estimateTotalTokens messages ≤ TOKEN_THRESHOLD then messages
  else compress messages now

end ContextCompressor

/-! ### Compression conservation (C3) and scenario C (C9) -/

/-- On a duplicate-free list, filtering by a predicate conjoined with
`l.indexOf m < k` is filtering the first `k` elements — the list-level
counterpart of the JS `filter(m => p(m) && list.indexOf(m) < k)` idiom
for (reference-)distinct elements. -/
theorem filter_and_indexOf_lt {α : Type _} [DecidableEq α] (q : α → Prop)
    [DecidablePred q] :
    ∀ (l : List α) (k : Nat), l.Nodup →
      (l.filter fun m => decide (q m ∧ l.indexOf m < k))
        = (l.take k).filter fun m => decide (q m)
  | [], _, _ => by simp
  | a :: t, 0, _ => by
    rw [List.take_zero, List.filter_nil]
    refine List.filter_eq_nil_iff.mpr fun m _ => by simp
  | a :: t, k + 1, h => by
    obtain ⟨ha, ht⟩ := List.nodup_cons.mp h
    rw [List.take_succ_cons, List.filter_cons, List.filter_cons]
    have hfa : decide (q a ∧ (a :: t).indexOf a < k + 1) = decide (q a) := by
      simp [List.indexOf_cons_self]
    have htail : (t.filter fun m => decide (q m ∧ (a :: t).indexOf m < k + 1))
        = t.filter fun m => decide (q m ∧ t.indexOf m < k) := by
      refine List.filter_congr fun m hm => ?_
      have hne : a ≠ m := fun e => ha (e ▸ hm)
      rw [List.indexOf_cons_ne t hne]
      simp [Nat.succ_lt_succ_iff]
    rw [hfa, htail, filter_and_indexOf_lt q t k ht]

namespace ContextCompressor

/-- A concrete input for the conservation counterexample: nine distinct
plain statement messages (none of the first three is a `system`
message). -/
def conservMsgs : List Message :=
  (List.range 9).map fun i =>
    { id := "m" ++ toString i
      timestamp := "2026-01-01T00:00:00.000Z"
      role := "CRITIC"
      type := .statement
      content := "这是一条普通的部门发言内容。" }

/-- Unfolded form of `compress` on a long (≥ 9 messages) duplicate-free
input: early `system` messages, then the single synthetic message, then
the last five messages. -/
theorem compress_long_eq (msgs : List Message) (now : String)
    (hnd : msgs.Nodup) (hlen : 9 ≤ msgs.length) :
    compress msgs now
      = ((msgs.take 3).filter fun m => decide (m.type = .system))
        ++ compressMiddleSection
            ((msgs.drop 3).take (msgs.length - 5 - 3)) now
          :: msgs.drop (msgs.length - 5) := by
  unfold compress
  simp only [PRESERVE_EARLY_SUMMARY, PRESERVE_RECENT]
  rw [if_neg (by omega)]
  rw [filter_and_indexOf_lt (fun m => m.type = .system) msgs 3 hnd]
  rw [if_pos (by
    simp only [List.length_take, List.length_drop]
    omega)]

theorem length_filter_add_length_filter_not {α : Type _} (p : α → Bool) :
    ∀ l : List α,
      (l.filter p).length + (l.filter fun a => !p a).length = l.length
  | [] => by simp
  | a :: t => by
    rw [List.filter_cons, List.filter_cons]
    by_cases hpa : p a = true <;>
      simp [hpa, ← length_filter_add_length_filter_not p t] <;> omega

set_option maxRecDepth 40000 in
/-- **C3, counterexample.**  On nine distinct plain statement messages,
`compress` produces one synthetic compressed message reporting an
`originalCount` of 1 while preserving 5 input messages verbatim, yet the
input had 9 messages: `1 + 5 ≠ 9`, so the reported original count plus
the verbatim-preserved count does not equal the pre-compression count
(the three leading non-`system` messages vanish from the accounting). -/
theorem compress_conservation_counterexample :
    (compress conservMsgs "2026-01-02T00:00:00.000Z").length = 6
    ∧ ((compress conservMsgs "2026-01-02T00:00:00.000Z").filter
          fun m => m.type = .compressed).map
        (fun m => (m.metadata.map fun md => md.originalCount).getD 0) = [1]
    ∧ ((compress conservMsgs "2026-01-02T00:00:00.000Z").filter
          fun m => ¬ m.type = .compressed).length = 5
    ∧ ((compress conservMsgs "2026-01-02T00:00:00.000Z").filter
          fun m => ¬ m.type = .compressed).all (fun m => m ∈ conservMsgs) = true
    ∧ conservMsgs.length = 9
    ∧ ¬ (1 + 5 = 9) := by
  decide

/-- **C3, amended.**  For every duplicate-free input of at least nine
messages (so that `compress` produces its synthetic compressed message),
the `originalCount` recorded in the compressed message plus the number of
messages preserved verbatim equals the number of input messages *minus
the number of non-`system` messages among the first three* (those are
dropped from the accounting); in particular the claimed conservation
holds exactly when the first three messages are all `system` messages. -/
theorem compress_conservation_amended (msgs : List Message) (now : String)
    (hnd : msgs.Nodup) (hlen : 9 ≤ msgs.length) :
    ∃ cm, (compress msgs now).find? (fun m => m.type = .compressed) = some cm
      ∧ ∃ md, cm.metadata = some md
        ∧ md.originalCount + ((compress msgs now).length - 1)
            = msgs.length
              - ((msgs.take 3).filter fun m => decide (¬ m.type = .system)).length := by
  rw [compress_long_eq msgs now hnd hlen]
  refine ⟨compressMiddleSection ((msgs.drop 3).take (msgs.length - 5 - 3)) now, ?_, ?_⟩
  · rw [List.find?_append]
    have hearly : (((msgs.take 3).filter fun m => decide (m.type = .system)).find?
        fun m => m.type = .compressed) = none := by
      refine List.find?_eq_none.mpr fun x hx => ?_
      have hx' := List.of_mem_filter hx
      simp only [decide_eq_true_eq] at hx'
      simp [hx']
    rw [hearly]
    simp [compressMiddleSection, List.find?_cons]
  · refine ⟨_, rfl, ?_⟩
    have hmid : ((msgs.drop 3).take (msgs.length - 5 - 3)).length
        = msgs.length - 8 := by
      simp only [List.length_take, List.length_drop]
      omega
    have hrec : (msgs.drop (msgs.length - 5)).length = 5 := by
      simp only [List.length_drop]
      omega
    have hsplit :
        ((msgs.take 3).filter fun m => decide (m.type = .system)).length
          + ((msgs.take 3).filter fun m => decide (¬ m.type = .system)).length
          = 3 := by
      have h3 : (msgs.take 3).length = 3 := by
        rw [List.length_take]
        omega
      have := length_filter_add_length_filter_not
        (fun m => decide (m.type = .system)) (msgs.take 3)
      simp only [decide_not] at this ⊢
      omega
    have hsle : ((msgs.take 3).filter fun m => decide (m.type = .system)).length ≤ 3 := by
      omega
    simp only [compressMiddleSection, List.length_append, List.length_cons, hmid, hrec]
    omega

/-- Witness input for the amended conservation theorem: three `system`
messages followed by six statements. -/
def conservWitnessMsgs : List Message :=
  ((List.range 3).map fun i =>
    { id := "s" ++ toString i
      timestamp := "2026-01-01T00:00:00.000Z"
      role := "SYSTEM"
      type := MsgType.system
      content := "进入阶段: issue_brief" })
  ++ ((List.range 6).map fun i =>
    { id := "m" ++ toString i
      timestamp := "2026-01-01T00:01:00.000Z"
      role := "FINANCE"
      type := .statement
      content := "预算情况说明。" })

set_option maxRecDepth 40000 in
theorem compress_conservation_amended_witness :
    conservWitnessMsgs.Nodup ∧ 9 ≤ conservWitnessMsgs.length ∧
      (∃ cm, (compress conservWitnessMsgs "2026-01-02T00:00:00.000Z").find?
            (fun m => m.type = .compressed) = some cm
        ∧ ∃ md, cm.metadata = some md
          ∧ md.originalCount
              + ((compress conservWitnessMsgs "2026-01-02T00:00:00.000Z").length - 1)
            = conservWitnessMsgs.length
              - ((conservWitnessMsgs.take 3).filter
                  fun m => decide (¬ m.type = .system)).length) :=
  ⟨by decide, by decide,
    compress_conservation_amended conservWitnessMsgs "2026-01-02T00:00:00.000Z"
      (by decide) (by decide)⟩

/-- Thirty distinct statement messages of exactly 300 characters each
(scenario C's "~300 characters"). -/
def scenMsgs300 : List Message :=
  (List.range 30).map fun i =>
    { id := "c" ++ toString i
      timestamp := "2026-01-01T00:00:00.000Z"
      role := "WORKS"
      type := .statement
      content := String.mk (List.replicate 300 '实') }

/-- Thirty distinct statement messages of 1,100 characters each. -/
def scenMsgs1100 : List Message :=
  (List.range 30).map fun i =>
    { id := "d" ++ toString i
      timestamp := "2026-01-01T00:00:00.000Z"
      role := "WORKS"
      type := .statement
      content := String.mk (List.replicate 1100 '实') }

set_option maxRecDepth 100000 in
/-- **C9, counterexample.**  Thirty statement messages of 300 characters
each estimate to only 2,250 tokens — far below the 8,000-token threshold
— so `needsCompression` returns `false`, not `true` as claimed. -/
theorem scenarioC_counterexample :
    scenMsgs300.length = 30
    ∧ scenMsgs300.all
        (fun m => decide (m.type = .statement) && decide (jsLen m.content = 300)) = true
    ∧ estimateTotalTokens scenMsgs300 = 2250
    ∧ needsCompression scenMsgs300 = false := by
  decide

set_option maxRecDepth 100000 in
/-- **C9, amended.**  For 30 statement messages the compression threshold
is only exceeded at roughly 1,100 characters per message (tokens are
estimated at one per four characters): on 30 messages of 1,100 characters
(8,250 estimated tokens) `needsCompression` returns `true` and `compress`
returns strictly fewer than 30 messages; on 30 messages of 300 characters
(2,250 estimated tokens) `needsCompression` returns `false`, though
`compress` — which never consults the threshold — still returns fewer
than 30 messages. -/
theorem scenarioC_amended :
    scenMsgs1100.length = 30
    ∧ scenMsgs1100.all
        (fun m => decide (m.type = .statement) && decide (jsLen m.content = 1100)) = true
    ∧ estimateTotalTokens scenMsgs1100 = 8250
    ∧ needsCompression scenMsgs1100 = true
    ∧ (compress scenMsgs1100 "2026-01-02T00:00:00.000Z").length < 30
    ∧ needsCompression scenMsgs300 = false
    ∧ (compress scenMsgs300 "2026-01-02T00:00:00.000Z").length < 30 := by
  decide

end ContextCompressor

/-! ## Context Retriever (`services/memory/contextRetriever.ts`)

Durable memory records are modelled with the frontmatter fields the
retriever reads; `frontmatter.date` is the parsed epoch-millisecond value
of the stored date (the retriever immediately feeds it to `new
Date(...).getTime()`).  The markdown store collaborator is a function
from a record type to its list of records, universally quantified in the
theorems. -/

structure Frontmatter where
  id : String
  ftype : String
  participants : Option (List String) := none
  involvedRoles : Option (List String) := none
  date : Int := 0
deriving DecidableEq, Repr

structure Memory where
  frontmatter : Frontmatter
  content : String
deriving DecidableEq, Repr

/-- `MemoryQuery` (`memory/types.ts`); `dateRange` is never read by the
retriever and is omitted. -/
structure MemoryQuery where
  topic : Option String := none
  roles : Option (List String) := none
  types : Option (List String) := none
  limit : Option Nat := none
  minRelevance : Option JQ := none
deriving DecidableEq, Repr

structure ContextItem where
  itype : String
  source : String
  relevance : JQ
  summary : String
  metadata : Frontmatter
deriving DecidableEq, Repr

structure RetrievalResult where
  items : List ContextItem
  totalTokens : Nat
  compressed : Bool
  query : MemoryQuery
deriving DecidableEq, Repr

namespace ContextRetriever

def maxTokens : Nat := 3000

/-- `Math.ceil(text.length / 4)`. -/
def estimateTokens (text : String) : Nat := (jsLen text + 3) / 4

/-- `calculateRelevance`.  `now` is `Date.now()` in epoch milliseconds. -/
def calculateRelevance (query : MemoryQuery) (memory : Memory) (now : Int) : JQ :=
  let score := JQ.zero
  -- Topic match (40%); `if (query.topic)`: the empty string is falsy in JS
  let score :=
    match query.topic with
    | some t =>
      if t.data.length ≠ 0 then
        if containsSub (jsToLower t.data) (jsToLower memory.content.data) then
          score.add (JQ.lit 4 10)
        else score
      else score
    | none => score
  -- Role match (30%); arrays (even empty ones) are truthy in JS
  let score :=
    match query.roles, memory.frontmatter.participants with
    | some rs, some ps =>
      let matchingRoles := rs.filter fun r => ps.contains r
      if matchingRoles.length ≠ 0 then
        score.add ((JQ.lit 3 10).mul ((JQ.ofNat matchingRoles.length).divNat rs.length))
      else score
    | some rs, none =>
      match memory.frontmatter.involvedRoles with
      | some irs =>
        let matchingRoles := rs.filter fun r => irs.contains r
        if matchingRoles.length ≠ 0 then
          score.add ((JQ.lit 3 10).mul ((JQ.ofNat matchingRoles.length).divNat rs.length))
        else score
      | none => score
    | none, _ => score
  -- Type match (20%)
  let score :=
    match query.types with
    | some ts =>
      if ts.contains memory.frontmatter.ftype then score.add (JQ.lit 2 10) else score
    | none => score
  -- Time decay (10%), linear over a one-year window
  let daysSince := (JQ.ofInt (now - memory.frontmatter.date)).divNat 86400000
  let timeScore := JQ.jsMax JQ.zero (JQ.one.sub (daysSince.divNat 365))
  let score := score.add (timeScore.mul (JQ.lit 1 10))
  JQ.jsMin JQ.one score

/-- `extractSummary`: the first `"\n\n"`-separated paragraph, capped at
200 characters. -/
def extractSummary (memory : Memory) : String :=
  let lines := jsSplit '\n' ['\n'] memory.content.data
  match lines with
  | first :: _ =>
    String.mk (jsTake 200 first ++ (if 200 < first.length then "...".data else []))
  | [] => String.mk (jsTake 200 memory.content.data ++ "...".data)

/-- `query.minRelevance || 0.6` (`0` is falsy in JS). -/
def effMinRelevance (query : MemoryQuery) : JQ :=
  match query.minRelevance with
  | some r => if r.truthy then r else JQ.lit 6 10
  | none => JQ.lit 6 10

/-- One acceptance loop of `retrieveContext`, generic in the produced
item-type label: records at or above the relevance cutoff are accepted
while the running token total stays within `maxTokens`. -/
def scanMemories (label : String) (query : MemoryQuery) (now : Int) :
    List Memory → List ContextItem × Nat → List ContextItem × Nat
  | [], acc => acc
  | memory :: rest, (items, totalTokens) =>
    let relevance := calculateRelevance query memory now
    if JQ.le (effMinRelevance query) relevance then
      let tokens := estimateTokens memory.content
      if totalTokens + tokens ≤ maxTokens then
        scanMemories label query now rest
          (items ++ [{ itype := label
                       source := memory.frontmatter.id
                       relevance := relevance
                       summary := extractSummary memory
                       metadata := memory.frontmatter }],
            totalTokens + tokens)
      else scanMemories label query now rest (items, totalTokens)
    else scanMemories label query now rest (items, totalTokens)

/-- The `for (const summary of meetingSummaries)` loop (step 1). -/
def scanMeetingSummaries (query : MemoryQuery) (now : Int) :
    List Memory → List ContextItem × Nat → List ContextItem × Nat
  | [], acc => acc
  | summary :: rest, (items, totalTokens) =>
    let relevance := calculateRelevance query summary now
    if JQ.le (effMinRelevance query) relevance then
      let tokens := estimateTokens summary.content
      if totalTokens + tokens ≤ maxTokens then
        scanMeetingSummaries query now rest
          (items ++ [{ itype := "meeting_summary"
                       source := summary.frontmatter.id
                       relevance := relevance
                       summary := extractSummary summary
                       metadata := summary.frontmatter }],
            totalTokens + tokens)
      else scanMeetingSummaries query now rest (items, totalTokens)
    else scanMeetingSummaries query now rest (items, totalTokens)

/-- The `for (const decision of decisions)` loop (step 2). -/
def scanDecisions (query : MemoryQuery) (now : Int) :
    List Memory → List ContextItem × Nat → List ContextItem × Nat
  | [], acc => acc
  | decision :: rest, (items, totalTokens) =>
    let relevance := calculateRelevance query decision now
    if JQ.le (effMinRelevance query) relevance then
      let tokens := estimateTokens decision.content
      if totalTokens + tokens ≤ maxTokens then
        scanDecisions query now rest
          (items ++ [{ itype := "previous_decision"
                       source := decision.frontmatter.id
                       relevance := relevance
                       summary := extractSummary decision
                       metadata := decision.frontmatter }],
            totalTokens + tokens)
      else scanDecisions query now rest (items, totalTokens)
    else scanDecisions query now rest (items, totalTokens)

/-- The `for (const controversy of controversies)` loop (step 3). -/
def scanControversies (query : MemoryQuery) (now : Int) :
    List Memory → List ContextItem × Nat → List ContextItem × Nat
  | [], acc => acc
  | controversy :: rest, (items, totalTokens) =>
    let relevance := calculateRelevance query controversy now
    if JQ.le (effMinRelevance query) relevance then
      let tokens := estimateTokens controversy.content
      if totalTokens + tokens ≤ maxTokens then
        scanControversies query now rest
          (items ++ [{ itype := "controversy"
                       source := controversy.frontmatter.id
                       relevance := relevance
                       summary := extractSummary controversy
                       metadata := controversy.frontmatter }],
            totalTokens + tokens)
      else scanControversies query now rest (items, totalTokens)
    else scanControversies query now rest (items, totalTokens)

/-- The `for (const learning of learnings)` loop (step 4). -/
def scanLearnings (query : MemoryQuery) (now : Int) :
    List Memory → List ContextItem × Nat → List ContextItem × Nat
  | [], acc => acc
  | learning :: rest, (items, totalTokens) =>
    let relevance := calculateRelevance query learning now
    if JQ.le (effMinRelevance query) relevance then
      let tokens := estimateTokens learning.content
      if totalTokens + tokens ≤ maxTokens then
        scanLearnings query now rest
          (items ++ [{ itype := "learning"
                       source := learning.frontmatter.id
                       relevance := relevance
                       summary := extractSummary learning
                       metadata := learning.frontmatter }],
            totalTokens + tokens)
      else scanLearnings query now rest (items, totalTokens)
    else scanLearnings query now rest (items, totalTokens)

/-- Stable insertion of an item into a list sorted by descending
relevance (later-inserted items go after equal-relevance ones). -/
def insertByRelevance (x : ContextItem) : List ContextItem → List ContextItem
  | [] => [x]
  | y :: t => if JQ.le x.relevance y.relevance then y :: insertByRelevance x t
              else x :: y :: t

/-- `items.sort((a, b) => b.relevance - a.relevance)`: a stable sort by
descending relevance (`Array.prototype.sort` is stable), modelled as a
stable insertion sort. -/
def sortByRelevanceDesc (items : List ContextItem) : List ContextItem :=
  items.foldl (fun acc x => insertByRelevance x acc) []

/-- `retrieveContext`: four acceptance loops in source order (meeting
summaries, decisions, controversies, learnings) threading one running
token total, then the final sort by relevance. -/
def retrieveContext (store : String → List Memory) (query : MemoryQuery)
    (now : Int) : RetrievalResult :=
  let acc1 := scanMeetingSummaries query now (store "meeting_summary") ([], 0)
  let acc2 := scanDecisions query now (store "decision") acc1
  let acc3 := scanControversies query now (store "controversy") acc2
  let acc4 := scanLearnings query now (store "learning") acc3
  { items := sortByRelevanceDesc acc4.1
    totalTokens := acc4.2
    compressed := false
    query := query }

/-- `getTypeLabel` (`labels[type] || type`). -/
def getTypeLabel (t : String) : String :=
  if t == "meeting_summary" then "会议摘要"
  else if t == "previous_decision" then "历史决策"
  else if t == "controversy" then "相关争议"
  else if t == "learning" then "学习经验"
  else if t == "pattern" then "模式识别"
  else t

/-- Group items by type preserving JS `Map` insertion order. -/
def groupItemsByType (items : List ContextItem) : List (String × List ContextItem) :=
  items.foldl
    (fun acc item =>
      if acc.any (fun p => p.1 = item.itype) then
        acc.map fun p => if p.1 = item.itype then (p.1, p.2 ++ [item]) else p
      else acc ++ [(item.itype, [item])])
    []

/-- `(relevance * 100).toFixed(0)` for the scores in `[0, 1]` that occur
(round half away from zero on a nonnegative value). -/
def relevancePercent (r : JQ) : String :=
  toString ((r.num * 200 + (r.den : Int)) / (2 * (r.den : Int)))

/-- `formatContextPackage`.  Frontmatter dates are epoch milliseconds in
this model and are rendered with `toString`. -/
def formatContextPackage (items : List ContextItem) : String :=
  if items.length = 0 then "# 相关历史上下文\n\n" ++ "无相关历史记录。\n"
  else
    (groupItemsByType items).foldl
      (fun content p =>
        content ++ "## " ++ getTypeLabel p.1 ++ "\n\n"
          ++ p.2.foldl
              (fun c item =>
                c ++ "- **" ++ item.summary ++ "**\n"
                  ++ "  - 相关度: " ++ relevancePercent item.relevance ++ "%\n"
                  ++ "  - 来源: " ++ toString item.metadata.date ++ "\n")
              ""
          ++ "\n")
      "# 相关历史上下文\n\n"

/-- A durable-store write, recorded instead of performed. -/
structure WriteOp where
  wtype : String
  wid : String
  content : String
deriving DecidableEq, Repr

structure PackageFrontmatter where
  id : String
  ptype : String
  targetTopic : Option String
  targetRoles : Option (List String)
  date : String
  itemCount : Nat
  totalTokens : Nat
deriving DecidableEq, Repr

/-- `buildContextPackage`.  `ctxId` stands for the generated
`ctx-${Date.now()}-${random}` identifier and `today` for
`toISOString().split('T')[0]`; the `writeMemory` side effect is returned
as a `WriteOp`. -/
def buildContextPackage (store : String → List Memory) (query : MemoryQuery)
    (now : Int) (ctxId today : String) :
    (PackageFrontmatter × String × Nat) × WriteOp :=
  let result := retrieveContext store query now
  let content := formatContextPackage result.items
  let frontmatter : PackageFrontmatter :=
    { id := ctxId
      ptype := "context_package"
      targetTopic := query.topic
      targetRoles := query.roles
      date := today
      itemCount := result.items.length
      totalTokens := result.totalTokens }
  ((frontmatter, content, result.totalTokens),
    { wtype := "context_package", wid := ctxId, content := content })

/-! ### Retrieval lemmas -/

theorem scanMeetingSummaries_eq (query : MemoryQuery) (now : Int) :
    ∀ (mems : List Memory) (acc : List ContextItem × Nat),
      scanMeetingSummaries query now mems acc
        = scanMemories "meeting_summary" query now mems acc := by
  intro mems
  induction mems with
  | nil => intro acc; rfl
  | cons m rest ih =>
    intro acc
    obtain ⟨items, total⟩ := acc
    simp only [scanMeetingSummaries, scanMemories]
    split_ifs <;> apply ih

theorem scanDecisions_eq (query : MemoryQuery) (now : Int) :
    ∀ (mems : List Memory) (acc : List ContextItem × Nat),
      scanDecisions query now mems acc
        = scanMemories "previous_decision" query now mems acc := by
  intro mems
  induction mems with
  | nil => intro acc; rfl
  | cons m rest ih =>
    intro acc
    obtain ⟨items, total⟩ := acc
    simp only [scanDecisions, scanMemories]
    split_ifs <;> apply ih

theorem scanControversies_eq (query : MemoryQuery) (now : Int) :
    ∀ (mems : List Memory) (acc : List ContextItem × Nat),
      scanControversies query now mems acc
        = scanMemories "controversy" query now mems acc := by
  intro mems
  induction mems with
  | nil => intro acc; rfl
  | cons m rest ih =>
    intro acc
    obtain ⟨items, total⟩ := acc
    simp only [scanControversies, scanMemories]
    split_ifs <;> apply ih

theorem scanLearnings_eq (query : MemoryQuery) (now : Int) :
    ∀ (mems : List Memory) (acc : List ContextItem × Nat),
      scanLearnings query now mems acc
        = scanMemories "learning" query now mems acc := by
  intro mems
  induction mems with
  | nil => intro acc; rfl
  | cons m rest ih =>
    intro acc
    obtain ⟨items, total⟩ := acc
    simp only [scanLearnings, scanMemories]
    split_ifs <;> apply ih

theorem scan_tokens_le (label : String) (query : MemoryQuery) (now : Int) :
    ∀ (mems : List Memory) (acc : List ContextItem × Nat),
      acc.2 ≤ maxTokens → (scanMemories label query now mems acc).2 ≤ maxTokens := by
  intro mems
  induction mems with
  | nil => intro acc h; exact h
  | cons m rest ih =>
    intro acc h
    obtain ⟨items, total⟩ := acc
    simp only [scanMemories]
    split_ifs with hrel hfit
    · exact ih _ hfit
    · exact ih _ h
    · exact ih _ h

/-- Does a record clear the effective relevance cutoff of a query? -/
def passEff (query : MemoryQuery) (now : Int) (mem : Memory) : Bool :=
  JQ.le (effMinRelevance query) (calculateRelevance query mem now)

def sumTokens (mems : List Memory) : Nat :=
  (mems.map fun m => estimateTokens m.content).sum

def allScanned (store : String → List Memory) : List Memory :=
  store "meeting_summary" ++ store "decision"
    ++ store "controversy" ++ store "learning"

theorem scan_count_le (label : String) (query : MemoryQuery) (now : Int) :
    ∀ (mems : List Memory) (acc : List ContextItem × Nat),
      (scanMemories label query now mems acc).1.length
        ≤ acc.1.length + (mems.filter (passEff query now)).length := by
  intro mems
  induction mems with
  | nil => intro acc; simp [scanMemories]
  | cons m rest ih =>
    intro acc
    obtain ⟨items, total⟩ := acc
    by_cases hrel : JQ.le (effMinRelevance query) (calculateRelevance query m now) = true
    · have hpass : passEff query now m = true := hrel
      have hflt : (m :: rest).filter (passEff query now)
          = m :: rest.filter (passEff query now) := by
        simp [List.filter_cons, hpass]
      by_cases hfit : total + estimateTokens m.content ≤ maxTokens
      · have h2 := ih (items ++
          [{ itype := label
             source := m.frontmatter.id
             relevance := calculateRelevance query m now
             summary := extractSummary m
             metadata := m.frontmatter }], total + estimateTokens m.content)
        simp only [scanMemories, if_pos hrel, if_pos hfit, hflt]
        simp only [List.length_append, List.length_cons, List.length_nil] at h2 ⊢
        omega
      · have h2 := ih (items, total)
        simp only [scanMemories, if_pos hrel, if_neg hfit, hflt]
        simp only [List.length_cons] at h2 ⊢
        omega
    · have hpass : passEff query now m = false := by
        simp only [passEff]
        simpa using hrel
      have hflt : (m :: rest).filter (passEff query now)
          = rest.filter (passEff query now) := by
        simp [List.filter_cons, hpass]
      simp only [scanMemories, if_neg hrel, hflt]
      exact ih (items, total)

theorem scan_all_fit (label : String) (query : MemoryQuery) (now : Int) :
    ∀ (mems : List Memory) (acc : List ContextItem × Nat),
      acc.2 + sumTokens (mems.filter (passEff query now)) ≤ maxTokens →
      (scanMemories label query now mems acc).1.length
          = acc.1.length + (mems.filter (passEff query now)).length
        ∧ (scanMemories label query now mems acc).2
          = acc.2 + sumTokens (mems.filter (passEff query now)) := by
  intro mems
  induction mems with
  | nil => intro acc h; simp [scanMemories, sumTokens]
  | cons m rest ih =>
    intro acc h
    obtain ⟨items, total⟩ := acc
    by_cases hrel : JQ.le (effMinRelevance query) (calculateRelevance query m now) = true
    · have hpass : passEff query now m = true := hrel
      have hflt : (m :: rest).filter (passEff query now)
          = m :: rest.filter (passEff query now) := by
        simp [List.filter_cons, hpass]
      have hsum : sumTokens ((m :: rest).filter (passEff query now))
          = estimateTokens m.content + sumTokens (rest.filter (passEff query now)) := by
        rw [hflt]; simp [sumTokens]
      have htot : total + sumTokens ((m :: rest).filter (passEff query now)) ≤ maxTokens := h
      rw [hsum] at htot
      have hfit : total + estimateTokens m.content ≤ maxTokens := by omega
      obtain ⟨ihl, iht⟩ := ih (items ++
        [{ itype := label
           source := m.frontmatter.id
           relevance := calculateRelevance query m now
           summary := extractSummary m
           metadata := m.frontmatter }], total + estimateTokens m.content)
        (by
          show total + estimateTokens m.content
            + sumTokens (rest.filter (passEff query now)) ≤ maxTokens
          omega)
      constructor
      · simp only [scanMemories, if_pos hrel, if_pos hfit, hflt]
        simp only [List.length_append, List.length_cons, List.length_nil] at ihl ⊢
        omega
      · simp only [scanMemories, if_pos hrel, if_pos hfit, hsum]
        rw [iht]
        show total + estimateTokens m.content
            + sumTokens (rest.filter (passEff query now))
          = total + (estimateTokens m.content
            + sumTokens (rest.filter (passEff query now)))
        omega
    · have hpass : passEff query now m = false := by
        simp only [passEff]
        simpa using hrel
      have hflt : (m :: rest).filter (passEff query now)
          = rest.filter (passEff query now) := by
        simp [List.filter_cons, hpass]
      have h' : total + sumTokens (rest.filter (passEff query now)) ≤ maxTokens := by
        rw [hflt] at h; exact h
      simp only [scanMemories, if_neg hrel, hflt]
      exact ih (items, total) h'

theorem length_filter_mono {α : Type _} {p q : α → Bool} :
    ∀ l : List α, (∀ a ∈ l, p a = true → q a = true) →
      (l.filter p).length ≤ (l.filter q).length
  | [], _ => Nat.le_refl _
  | a :: t, h => by
    have ht := length_filter_mono t fun x hx => h x (List.mem_cons_of_mem a hx)
    rw [List.filter_cons, List.filter_cons]
    by_cases hp : p a = true
    · rw [if_pos hp, if_pos (h a (List.mem_cons_self a t) hp)]
      simpa using ht
    · rw [if_neg hp]
      split <;> simp <;> omega

theorem length_insertByRelevance (x : ContextItem) :
    ∀ l : List ContextItem, (insertByRelevance x l).length = l.length + 1
  | [] => rfl
  | y :: t => by
    simp only [insertByRelevance]
    split
    · simp [length_insertByRelevance x t]
    · simp

theorem length_sortByRelevanceDesc_aux :
    ∀ (items : List ContextItem) (acc : List ContextItem),
      (items.foldl (fun acc x => insertByRelevance x acc) acc).length
        = acc.length + items.length
  | [], acc => by simp
  | x :: t, acc => by
    simp only [List.foldl_cons]
    rw [length_sortByRelevanceDesc_aux t (insertByRelevance x acc),
      length_insertByRelevance]
    simp only [List.length_cons]
    omega

theorem length_sortByRelevanceDesc (items : List ContextItem) :
    (sortByRelevanceDesc items).length = items.length := by
  unfold sortByRelevanceDesc
  rw [length_sortByRelevanceDesc_aux]
  simp

theorem calculateRelevance_set_minRelevance (query : MemoryQuery)
    (r : Option JQ) (mem : Memory) (now : Int) :
    calculateRelevance { query with minRelevance := r } mem now
      = calculateRelevance query mem now := by
  cases query
  rfl

theorem effMinRelevance_set (query : MemoryQuery) (r : JQ)
    (ht : r.truthy = true) :
    effMinRelevance { query with minRelevance := some r } = r := by
  cases query
  simp [effMinRelevance, ht]

theorem sumTokens_append (a b : List Memory) :
    sumTokens (a ++ b) = sumTokens a + sumTokens b := by
  simp [sumTokens]

/-- **C4.**  `retrieveContext` never reports more than its 3,000-token
ceiling: every record is accepted only while the running total stays
within `maxTokens`, so the `totalTokens` of the result — and hence the
token count of the package built by `buildContextPackage` — is at most
3,000, for every store contents and every query. -/
theorem retrieval_token_cap (store : String → List Memory)
    (query : MemoryQuery) (now : Int) (ctxId today : String) :
    (retrieveContext store query now).totalTokens ≤ 3000
    ∧ (buildContextPackage store query now ctxId today).1.2.2 ≤ 3000
    ∧ (buildContextPackage store query now ctxId today).1.1.totalTokens ≤ 3000 := by
  have h : (retrieveContext store query now).totalTokens ≤ maxTokens := by
    simp only [retrieveContext, scanMeetingSummaries_eq, scanDecisions_eq,
      scanControversies_eq, scanLearnings_eq]
    exact scan_tokens_le _ _ _ _ _
      (scan_tokens_le _ _ _ _ _
        (scan_tokens_le _ _ _ _ _
          (scan_tokens_le _ _ _ _ _ (by norm_num [maxTokens]))))
  refine ⟨h, ?_, ?_⟩ <;> simpa [buildContextPackage] using h

/-- Acceptance-blocking store for the monotonicity counterexample:
fifteen 800-character `decision` records of relevance 0.1 that exactly
fill the 3,000-token budget, followed by sixteen tiny records of
relevance 0.5. -/
def monoStore : String → List Memory := fun t =>
  if t == "decision" then
    ((List.range 15).map fun i =>
      { frontmatter := { id := "blk" ++ toString i, ftype := "decision",
                         date := 1750000000000 }
        content := String.mk (List.replicate 800 'a') })
    ++ ((List.range 16).map fun i =>
      { frontmatter := { id := "hi" ++ toString i, ftype := "decision",
                         date := 1750000000000 }
        content := "zz" })
  else []

def monoQuery (r : JQ) : MemoryQuery :=
  { topic := some "zz", minRelevance := some r }

def monoNow : Int := 1750000000000

set_option maxRecDepth 200000 in
/-- **C5, counterexample.**  With the cutoff at 0.1 the fifteen
relevance-0.1 records fill the whole 3,000-token budget and the sixteen
relevance-0.5 records are all rejected by the cap (15 items); raising the
cutoff to 0.5 excludes the budget-fillers and admits all sixteen
relevance-0.5 records (16 items) — raising `minRelevance` increased the
returned item count. -/
theorem retrieval_monotonicity_counterexample :
    JQ.le (JQ.lit 1 10) (JQ.lit 5 10) = true
    ∧ (retrieveContext monoStore (monoQuery (JQ.lit 1 10)) monoNow).items.length = 15
    ∧ (retrieveContext monoStore (monoQuery (JQ.lit 5 10)) monoNow).items.length = 16
    ∧ ¬ (16 ≤ 15) := by
  decide

/-- **C5, amended.**  Raising the (nonzero) `minRelevance` cutoff never
increases the number of returned items *provided the token budget is not
binding at the lower cutoff*, i.e. when all records clearing the lower
cutoff together fit in the 3,000-token budget; without that proviso the
first-come token-cap acceptance can reject high-relevance records at the
lower cutoff only (see the counterexample). -/
theorem retrieval_monotonicity_amended
    (store : String → List Memory) (query : MemoryQuery) (now : Int)
    (r1 r2 : JQ) (h2pos : JQ.Posden r2)
    (htr1 : r1.truthy = true) (htr2 : r2.truthy = true)
    (h12 : JQ.le r1 r2 = true)
    (hfit : sumTokens ((allScanned store).filter
        fun m => JQ.le r1 (calculateRelevance query m now)) ≤ 3000) :
    (retrieveContext store { query with minRelevance := some r2 } now).items.length
      ≤ (retrieveContext store { query with minRelevance := some r1 } now).items.length := by
  set q1 : MemoryQuery := { query with minRelevance := some r1 } with hq1
  set q2 : MemoryQuery := { query with minRelevance := some r2 } with hq2
  have hp1 : passEff q1 now = fun m => JQ.le r1 (calculateRelevance query m now) := by
    funext m
    simp only [passEff, hq1, effMinRelevance_set query r1 htr1,
      calculateRelevance_set_minRelevance]
  have hp21 : ∀ m ∈ allScanned store, passEff q2 now m = true → passEff q1 now m = true := by
    intro m _ h
    rw [hp1]
    simp only [passEff, hq2, effMinRelevance_set query r2 htr2,
      calculateRelevance_set_minRelevance] at h
    exact JQ.le_trans h2pos h12 h
  -- token sums of the records passing the lower cutoff, per store section
  have hsplit : sumTokens ((store "meeting_summary").filter (passEff q1 now))
      + sumTokens ((store "decision").filter (passEff q1 now))
      + sumTokens ((store "controversy").filter (passEff q1 now))
      + sumTokens ((store "learning").filter (passEff q1 now)) ≤ maxTokens := by
    have : (allScanned store).filter (passEff q1 now)
        = (store "meeting_summary").filter (passEff q1 now)
          ++ (store "decision").filter (passEff q1 now)
          ++ (store "controversy").filter (passEff q1 now)
          ++ (store "learning").filter (passEff q1 now) := by
      simp [allScanned, List.filter_append]
    rw [hp1] at this
    have hfit' := hfit
    rw [this] at hfit'
    rw [← hp1] at hfit'
    simp only [sumTokens_append] at hfit'
    simpa [maxTokens] using hfit'
  -- the run at the lower cutoff accepts exactly the passing records
  have hms := scan_all_fit "meeting_summary" q1 now (store "meeting_summary")
    ([], 0) (by simpa using (by omega :
      0 + sumTokens ((store "meeting_summary").filter (passEff q1 now)) ≤ maxTokens))
  obtain ⟨hms1, hms2⟩ := hms
  have hds := scan_all_fit "previous_decision" q1 now (store "decision")
    (scanMemories "meeting_summary" q1 now (store "meeting_summary") ([], 0))
    (by rw [hms2]; omega)
  obtain ⟨hds1, hds2⟩ := hds
  have hcs := scan_all_fit "controversy" q1 now (store "controversy")
    (scanMemories "previous_decision" q1 now (store "decision")
      (scanMemories "meeting_summary" q1 now (store "meeting_summary") ([], 0)))
    (by rw [hds2, hms2]; omega)
  obtain ⟨hcs1, hcs2⟩ := hcs
  have hls := scan_all_fit "learning" q1 now (store "learning")
    (scanMemories "controversy" q1 now (store "controversy")
      (scanMemories "previous_decision" q1 now (store "decision")
        (scanMemories "meeting_summary" q1 now (store "meeting_summary") ([], 0))))
    (by rw [hcs2, hds2, hms2]; omega)
  obtain ⟨hls1, _⟩ := hls
  -- counts at the higher cutoff are bounded by its passing records
  have c1 := scan_count_le "meeting_summary" q2 now (store "meeting_summary") ([], 0)
  have c2 := scan_count_le "previous_decision" q2 now (store "decision")
    (scanMemories "meeting_summary" q2 now (store "meeting_summary") ([], 0))
  have c3 := scan_count_le "controversy" q2 now (store "controversy")
    (scanMemories "previous_decision" q2 now (store "decision")
      (scanMemories "meeting_summary" q2 now (store "meeting_summary") ([], 0)))
  have c4 := scan_count_le "learning" q2 now (store "learning")
    (scanMemories "controversy" q2 now (store "controversy")
      (scanMemories "previous_decision" q2 now (store "decision")
        (scanMemories "meeting_summary" q2 now (store "meeting_summary") ([], 0))))
  -- passing records at the higher cutoff are a subset of the lower's
  have m1 := length_filter_mono (p := passEff q2 now) (q := passEff q1 now)
    (store "meeting_summary") fun a ha h =>
      hp21 a (by simp [allScanned, ha]) h
  have m2 := length_filter_mono (p := passEff q2 now) (q := passEff q1 now)
    (store "decision") fun a ha h =>
      hp21 a (by simp [allScanned, ha]) h
  have m3 := length_filter_mono (p := passEff q2 now) (q := passEff q1 now)
    (store "controversy") fun a ha h =>
      hp21 a (by simp [allScanned, ha]) h
  have m4 := length_filter_mono (p := passEff q2 now) (q := passEff q1 now)
    (store "learning") fun a ha h =>
      hp21 a (by simp [allScanned, ha]) h
  simp only [retrieveContext, length_sortByRelevanceDesc]
  rw [scanMeetingSummaries_eq, scanDecisions_eq, scanControversies_eq,
    scanLearnings_eq]
  rw [scanMeetingSummaries_eq, scanDecisions_eq, scanControversies_eq,
    scanLearnings_eq]
  rw [hls1, hcs1, hds1, hms1]
  omega

/-- Witness store for the amended monotonicity theorem: one tiny
relevance-0.5 decision record. -/
def monoWitnessStore : String → List Memory := fun t =>
  if t == "decision" then
    [{ frontmatter := { id := "d1", ftype := "decision", date := 1750000000000 }
       content := "zz" }]
  else []

def monoWitnessQuery : MemoryQuery := { topic := some "zz" }

theorem retrieval_monotonicity_amended_witness :
    JQ.Posden (JQ.lit 6 10)
    ∧ (JQ.lit 4 10).truthy = true
    ∧ (JQ.lit 6 10).truthy = true
    ∧ JQ.le (JQ.lit 4 10) (JQ.lit 6 10) = true
    ∧ sumTokens ((allScanned monoWitnessStore).filter
        fun m => JQ.le (JQ.lit 4 10)
          (calculateRelevance monoWitnessQuery m monoNow)) ≤ 3000
    ∧ (retrieveContext monoWitnessStore
          { monoWitnessQuery with minRelevance := some (JQ.lit 6 10) } monoNow).items.length
        ≤ (retrieveContext monoWitnessStore
          { monoWitnessQuery with minRelevance := some (JQ.lit 4 10) } monoNow).items.length :=
  ⟨by decide, by decide, by decide, by decide, by decide,
    retrieval_monotonicity_amended monoWitnessStore monoWitnessQuery monoNow
      (JQ.lit 4 10) (JQ.lit 6 10) (by decide) (by decide) (by decide)
      (by decide) (by decide)⟩

/-- Modelled from the spec's words for the scan-order claim: the same
record acceptance, but scanning decisions first, then controversies, then
learnings, then prior meeting summaries. -/
def retrieveContextSpecOrder (store : String → List Memory)
    (query : MemoryQuery) (now : Int) : RetrievalResult :=
  let acc1 := scanDecisions query now (store "decision") ([], 0)
  let acc2 := scanControversies query now (store "controversy") acc1
  let acc3 := scanLearnings query now (store "learning") acc2
  let acc4 := scanMeetingSummaries query now (store "meeting_summary") acc3
  { items := sortByRelevanceDesc acc4.1
    totalTokens := acc4.2
    compressed := false
    query := query }

/-- Store for the scan-order counterexample: fifteen 200-token meeting
summaries that fill the budget, plus one 200-token decision. -/
def orderStore : String → List Memory := fun t =>
  if t == "meeting_summary" then
    (List.range 15).map fun i =>
      { frontmatter := { id := "sum" ++ toString i, ftype := "meeting_summary",
                         date := 1750000000000 }
        content := String.mk (List.replicate 800 'a') }
  else if t == "decision" then
    [{ frontmatter := { id := "dec0", ftype := "decision", date := 1750000000000 }
       content := String.mk (List.replicate 800 'a') }]
  else []

def orderQuery : MemoryQuery := { minRelevance := some (JQ.lit 1 10) }

set_option maxRecDepth 200000 in
/-- **C6, counterexample.**  The code scans meeting summaries *first*,
not last: with fifteen 200-token summaries and one 200-token decision,
all equally relevant, the code's scan accepts the fifteen summaries and
rejects the decision against the exhausted budget, while the
spec-ordered scan (decisions first) accepts the decision and only
fourteen summaries — the accepted items differ. -/
theorem retrieval_scan_order_counterexample :
    ((retrieveContext orderStore orderQuery monoNow).items.map fun i => i.source)
      ≠ ((retrieveContextSpecOrder orderStore orderQuery monoNow).items.map
          fun i => i.source) := by
  decide

/-- **C6, amended.**  `retrieveContext` scans the durable record types in
the fixed priority order *meeting summaries first, then decisions, then
controversies, then learnings*, and acceptance against the single running
token budget happens in that scan order (the result is that pipeline of
acceptance scans, followed by the relevance sort). -/
theorem retrieval_scan_order_amended (store : String → List Memory)
    (query : MemoryQuery) (now : Int) :
    retrieveContext store query now =
      { items := sortByRelevanceDesc
          (scanMemories "learning" query now (store "learning")
            (scanMemories "controversy" query now (store "controversy")
              (scanMemories "previous_decision" query now (store "decision")
                (scanMemories "meeting_summary" query now
                  (store "meeting_summary") ([], 0))))).1
        totalTokens :=
          (scanMemories "learning" query now (store "learning")
            (scanMemories "controversy" query now (store "controversy")
              (scanMemories "previous_decision" query now (store "decision")
                (scanMemories "meeting_summary" query now
                  (store "meeting_summary") ([], 0))))).2
        compressed := false
        query := query } := by
  simp only [retrieveContext, scanMeetingSummaries_eq, scanDecisions_eq,
    scanControversies_eq, scanLearnings_eq]

end ContextRetriever

/-! ## Meeting stages (`services/meeting/stages.ts`) -/

inductive MeetingStage
  | idle
  | issueBrief
  | departmentSpeeches
  | brainIntervention
  | primeSummary
  | followUpDiscussion
  | primeDecision
  | completed
  | failed
deriving DecidableEq, Repr

/-- The string value of each `MeetingStage` enum member. -/
def MeetingStage.value : MeetingStage → String
  | .idle => "idle"
  | .issueBrief => "issue_brief"
  | .departmentSpeeches => "department_speeches"
  | .brainIntervention => "brain_intervention"
  | .primeSummary => "prime_summary"
  | .followUpDiscussion => "follow_up_discussion"
  | .primeDecision => "prime_decision"
  | .completed => "completed"
  | .failed => "failed"

/-- `Object.values(MeetingStage)`: declaration order of the enum. -/
def stageValues : List MeetingStage :=
  [.idle, .issueBrief, .departmentSpeeches, .brainIntervention, .primeSummary,
   .followUpDiscussion, .primeDecision, .completed, .failed]

/-- `getNextStage` (the index is always in range; `.getD current` only
discharges the impossible out-of-range case). -/
def getNextStage (current : MeetingStage) : MeetingStage :=
  let stages := stageValues
  let currentIndex := stages.indexOf current
  (stages.get? (min (currentIndex + 1) (stages.length - 1))).getD current

/-- `getStageFlow`. -/
def getStageFlow : List MeetingStage :=
  [.issueBrief, .departmentSpeeches, .brainIntervention, .primeSummary,
   .followUpDiscussion, .primeDecision]

structure StageConfig where
  stage : MeetingStage
  requiredRoles : List String
  maxTokens : Option Nat := none
  canDegrade : Option Bool := none
deriving DecidableEq, Repr

def STAGE_CONFIGS : MeetingStage → StageConfig
  | .idle => { stage := .idle, requiredRoles := [] }
  | .issueBrief =>
    { stage := .issueBrief, requiredRoles := ["PRIME"], maxTokens := some 1000 }
  | .departmentSpeeches =>
    { stage := .departmentSpeeches, requiredRoles := ["CRITIC", "FINANCE", "WORKS"],
      maxTokens := some 4000, canDegrade := some false }
  | .brainIntervention =>
    { stage := .brainIntervention, requiredRoles := ["BRAIN"],
      maxTokens := some 1500, canDegrade := some true }
  | .primeSummary =>
    { stage := .primeSummary, requiredRoles := ["PRIME"],
      maxTokens := some 1500, canDegrade := some false }
  | .followUpDiscussion =>
    { stage := .followUpDiscussion, requiredRoles := ["CRITIC", "FINANCE", "WORKS"],
      maxTokens := some 3000, canDegrade := some true }
  | .primeDecision =>
    { stage := .primeDecision, requiredRoles := ["PRIME"], maxTokens := some 1500 }
  | .completed => { stage := .completed, requiredRoles := [] }
  | .failed => { stage := .failed, requiredRoles := [] }

/-- `canSkipStage`: only `canDegrade` stages, at 90% of budget. -/
def canSkipStage (stage : MeetingStage) (usage budget : JQ) : Bool :=
  let config := STAGE_CONFIGS stage
  if !(config.canDegrade.getD false) then false
  else JQ.le (budget.mul (JQ.lit 9 10)) usage

/-- `shouldSkipToDecision`: budget exhausted. -/
def shouldSkipToDecision (usage budget : JQ) : Bool := JQ.le budget usage

/-! ## Meeting data model (`models/index.ts`) -/

structure IssueBrief where
  topic : String
  background : String
  keyConsiderations : List String
deriving DecidableEq, Repr

structure Summary where
  summary : String
  /-- the `structure` field (renamed: `structure` is reserved in Lean). -/
  structureLabel : Option String := none
deriving DecidableEq, Repr

structure FinalDecision where
  decision : String
  reasoning : String
  nextSteps : List String
deriving DecidableEq, Repr

/-- The shape the Flow Controller reads out of the parsed BRAIN JSON
analysis (fields may be absent in the parsed value). -/
structure ParsedAnalysis where
  shouldIntervene : Bool := false
  clarificationRole : Option String := none
  clarificationQuestion : Option String := none
  consensus : Option (List String) := none
  disagreements : Option (List String) := none
deriving DecidableEq, Repr

structure BrainAnalysis where
  analysis : String
  parsed : Option ParsedAnalysis := none
  consensus : List String
  disagreements : List String
deriving DecidableEq, Repr

structure Artifacts where
  issueBrief : Option IssueBrief := none
  summary : Option Summary := none
  finalDecision : Option FinalDecision := none
  brainAnalysis : Option BrainAnalysis := none
deriving DecidableEq, Repr

/-- The meeting record; `startedAt`/`completedAt` are the parsed epoch
milliseconds of the stored timestamps. -/
structure Meeting where
  id : String
  topic : String
  description : Option String := none
  selectedRoleIds : Option (List String) := none
  status : String := "running"
  error : Option String := none
  budget : JQ
  usage : JQ
  startedAt : Option Int := none
  completedAt : Option Int := none
  messages : List Message := []
  artifacts : Artifacts := {}
  degradation : Option String := none
deriving DecidableEq, Repr

/-! ## Flow Controller: `executeStage` (`services/meeting/flowControl.ts`)

The six stage-specific executors suspend on external generation calls;
for the budget/degradation claims they are abstracted as an oracle record
whose members have the executors' result shapes, universally quantified.
-/

structure FlowOracles where
  execIssueBrief : Meeting → List Message × IssueBrief × JQ
  execDepartmentSpeeches : Meeting → List Message × JQ
  execBrainIntervention : Meeting → List Message × BrainAnalysis × JQ
  execPrimeSummary : Meeting → List Message × Summary × JQ
  execFollowUpDiscussion : Meeting → List Message × JQ
  execPrimeDecision : Meeting → List Message × FinalDecision × JQ

structure ExecuteStageResult where
  messages : List Message
  newStage : MeetingStage
  degradation : Option String := none
  meeting : Meeting
deriving Repr

/-- `FlowControl.executeStage`; `nowId`/`nowTs` stand for the
`Date.now()` / `toISOString()` values read for the stage-transition
message.  The updated meeting record models the in-place mutation of
`meeting.artifacts` and `meeting.usage`. -/
def executeStage (o : FlowOracles) (meeting : Meeting) (stage : MeetingStage)
    (nowId nowTs : String) : ExecuteStageResult :=
  let usage := meeting.usage
  let budget := meeting.budget
  -- If budget exceeded, skip to decision
  if shouldSkipToDecision usage budget = true ∧ ¬ stage = MeetingStage.primeDecision then
    { messages := []
      newStage := .primeDecision
      degradation := some "severe"
      meeting := meeting }
  -- Check if stage should be skipped
  else if canSkipStage stage usage budget = true ∧ ¬ stage = MeetingStage.primeDecision then
    { messages := []
      newStage := getNextStage stage
      degradation := some "partial"
      meeting := meeting }
  else
    let stageMessage : Message :=
      { id := "msg-" ++ nowId
        timestamp := nowTs
        role := "SYSTEM"
        type := .system
        content := "进入阶段: " ++ stage.value }
    match stage with
    | .issueBrief =>
      let r := o.execIssueBrief meeting
      { messages := stageMessage :: r.1
        newStage := getNextStage .issueBrief
        degradation := none
        meeting := { meeting with
          artifacts := { meeting.artifacts with issueBrief := some r.2.1 }
          usage := meeting.usage.add r.2.2 } }
    | .departmentSpeeches =>
      let r := o.execDepartmentSpeeches meeting
      { messages := stageMessage :: r.1
        newStage := getNextStage .departmentSpeeches
        degradation := none
        meeting := { meeting with usage := meeting.usage.add r.2 } }
    | .brainIntervention =>
      let r := o.execBrainIntervention meeting
      { messages := stageMessage :: r.1
        newStage := getNextStage .brainIntervention
        degradation := none
        meeting := { meeting with
          artifacts := { meeting.artifacts with brainAnalysis := some r.2.1 }
          usage := meeting.usage.add r.2.2 } }
    | .primeSummary =>
      let r := o.execPrimeSummary meeting
      { messages := stageMessage :: r.1
        newStage := getNextStage .primeSummary
        degradation := none
        meeting := { meeting with
          artifacts := { meeting.artifacts with summary := some r.2.1 }
          usage := meeting.usage.add r.2.2 } }
    | .followUpDiscussion =>
      let r := o.execFollowUpDiscussion meeting
      { messages := stageMessage :: r.1
        newStage := getNextStage .followUpDiscussion
        degradation := none
        meeting := { meeting with usage := meeting.usage.add r.2 } }
    | .primeDecision =>
      let r := o.execPrimeDecision meeting
      { messages := stageMessage :: r.1
        newStage := .completed
        degradation := none
        meeting := { meeting with
          artifacts := { meeting.artifacts with finalDecision := some r.2.1 }
          usage := meeting.usage.add r.2.2 } }
    | s =>
      { messages := [stageMessage]
        newStage := getNextStage s
        degradation := none
        meeting := meeting }

theorem JQ.le_false_of_lt {a b : JQ} (h : JQ.lt a b = true) : JQ.le b a = false := by
  simp only [JQ.lt, decide_eq_true_eq] at h
  simp only [JQ.le, decide_eq_false_iff_not]
  omega

/-- **C1.**  When cumulative usage has reached the budget, `executeStage`
on any stage other than `PRIME_DECISION` performs no stage work at all —
for every possible behaviour of the stage executors it returns the empty
message list, `newStage = PRIME_DECISION`, degradation `"severe"`, and
leaves the meeting untouched. -/
theorem budget_forces_decision (o : FlowOracles) (meeting : Meeting)
    (stage : MeetingStage) (nowId nowTs : String)
    (hbudget : JQ.le meeting.budget meeting.usage = true)
    (hstage : ¬ stage = MeetingStage.primeDecision) :
    executeStage o meeting stage nowId nowTs
      = { messages := []
          newStage := .primeDecision
          degradation := some "severe"
          meeting := meeting } := by
  unfold executeStage
  rw [if_pos ⟨hbudget, hstage⟩]

def trivialOracles : FlowOracles :=
  { execIssueBrief := fun _ => ([], { topic := "", background := "", keyConsiderations := [] }, JQ.zero)
    execDepartmentSpeeches := fun _ => ([], JQ.zero)
    execBrainIntervention := fun _ =>
      ([], { analysis := "", consensus := [], disagreements := [] }, JQ.zero)
    execPrimeSummary := fun _ => ([], { summary := "" }, JQ.zero)
    execFollowUpDiscussion := fun _ => ([], JQ.zero)
    execPrimeDecision := fun _ =>
      ([], { decision := "", reasoning := "", nextSteps := [] }, JQ.zero) }

def overBudgetMeeting : Meeting :=
  { id := "meet-1", topic := "试点项目", budget := JQ.lit 200 1, usage := JQ.lit 200 1 }

theorem budget_forces_decision_witness :
    JQ.le overBudgetMeeting.budget overBudgetMeeting.usage = true
    ∧ ¬ MeetingStage.issueBrief = MeetingStage.primeDecision
    ∧ executeStage trivialOracles overBudgetMeeting .issueBrief "1" "t"
        = { messages := []
            newStage := .primeDecision
            degradation := some "severe"
            meeting := overBudgetMeeting } :=
  ⟨by decide, by decide,
    budget_forces_decision trivialOracles overBudgetMeeting .issueBrief "1" "t"
      (by decide) (by decide)⟩

/-- **C2.**  With 90% of budget consumed but the budget not exhausted,
every stage whose config has `canDegrade = true` (exactly
`BRAIN_INTERVENTION` and `FOLLOW_UP_DISCUSSION`) is skipped: zero
messages, the next stage in the fixed order, and degradation
`"partial"`; under the same budget condition `DEPARTMENT_SPEECHES` and
`PRIME_SUMMARY` are never skipped — they execute their stage body
(producing at least the stage-transition message) with no degradation. -/
theorem degradable_stage_skip (o : FlowOracles) (meeting : Meeting)
    (nowId nowTs : String)
    (h09 : JQ.le (meeting.budget.mul (JQ.lit 9 10)) meeting.usage = true)
    (hlt : JQ.lt meeting.usage meeting.budget = true) :
    (∀ stage : MeetingStage, (STAGE_CONFIGS stage).canDegrade = some true →
      executeStage o meeting stage nowId nowTs
        = { messages := []
            newStage := getNextStage stage
            degradation := some "partial"
            meeting := meeting })
    ∧ ((executeStage o meeting .departmentSpeeches nowId nowTs).degradation = none
        ∧ (executeStage o meeting .departmentSpeeches nowId nowTs).messages ≠ []
        ∧ (executeStage o meeting .departmentSpeeches nowId nowTs).newStage
            = getNextStage .departmentSpeeches)
    ∧ ((executeStage o meeting .primeSummary nowId nowTs).degradation = none
        ∧ (executeStage o meeting .primeSummary nowId nowTs).messages ≠ []
        ∧ (executeStage o meeting .primeSummary nowId nowTs).newStage
            = getNextStage .primeSummary) := by
  have hnskip : shouldSkipToDecision meeting.usage meeting.budget = false :=
    JQ.le_false_of_lt hlt
  have hne1 : ∀ stage : MeetingStage,
      ¬ (shouldSkipToDecision meeting.usage meeting.budget = true
        ∧ ¬ stage = MeetingStage.primeDecision) := by
    rintro stage ⟨h1, -⟩
    rw [hnskip] at h1
    exact Bool.false_ne_true h1
  refine ⟨?_, ?_, ?_⟩
  · intro stage hcd
    cases stage <;> simp only [STAGE_CONFIGS] at hcd <;>
      [skip; skip; skip; skip; skip; skip; skip; skip; skip] <;>
      try simp at hcd
    case brainIntervention =>
      unfold executeStage
      rw [if_neg (hne1 _)]
      rw [if_pos ⟨by simp [canSkipStage, STAGE_CONFIGS, h09], by simp⟩]
    case followUpDiscussion =>
      unfold executeStage
      rw [if_neg (hne1 _)]
      rw [if_pos ⟨by simp [canSkipStage, STAGE_CONFIGS, h09], by simp⟩]
  · have hne2 : ¬ (canSkipStage .departmentSpeeches meeting.usage meeting.budget = true
        ∧ ¬ MeetingStage.departmentSpeeches = MeetingStage.primeDecision) := by
      rintro ⟨h1, -⟩
      simp [canSkipStage, STAGE_CONFIGS] at h1
    unfold executeStage
    rw [if_neg (hne1 _), if_neg hne2]
    exact ⟨rfl, by simp, rfl⟩
  · have hne2 : ¬ (canSkipStage .primeSummary meeting.usage meeting.budget = true
        ∧ ¬ MeetingStage.primeSummary = MeetingStage.primeDecision) := by
      rintro ⟨h1, -⟩
      simp [canSkipStage, STAGE_CONFIGS] at h1
    unfold executeStage
    rw [if_neg (hne1 _), if_neg hne2]
    exact ⟨rfl, by simp, rfl⟩

def nearBudgetMeeting : Meeting :=
  { id := "meet-2", topic := "试点项目", budget := JQ.lit 100 1, usage := JQ.lit 95 1 }

theorem degradable_stage_skip_witness :
    JQ.le (nearBudgetMeeting.budget.mul (JQ.lit 9 10)) nearBudgetMeeting.usage = true
    ∧ JQ.lt nearBudgetMeeting.usage nearBudgetMeeting.budget = true
    ∧ ((∀ stage : MeetingStage, (STAGE_CONFIGS stage).canDegrade = some true →
        executeStage trivialOracles nearBudgetMeeting stage "1" "t"
          = { messages := []
              newStage := getNextStage stage
              degradation := some "partial"
              meeting := nearBudgetMeeting })
      ∧ ((executeStage trivialOracles nearBudgetMeeting .departmentSpeeches "1" "t").degradation = none
          ∧ (executeStage trivialOracles nearBudgetMeeting .departmentSpeeches "1" "t").messages ≠ []
          ∧ (executeStage trivialOracles nearBudgetMeeting .departmentSpeeches "1" "t").newStage
              = getNextStage .departmentSpeeches)
      ∧ ((executeStage trivialOracles nearBudgetMeeting .primeSummary "1" "t").degradation = none
          ∧ (executeStage trivialOracles nearBudgetMeeting .primeSummary "1" "t").messages ≠ []
          ∧ (executeStage trivialOracles nearBudgetMeeting .primeSummary "1" "t").newStage
              = getNextStage .primeSummary)) :=
  ⟨by decide, by decide,
    degradable_stage_skip trivialOracles nearBudgetMeeting "1" "t"
      (by decide) (by decide)⟩

/-! ## Completion Scheduler (`FlowControl.completeForRole`)

`completeForRole` chains every generation request onto one `static`
promise shared by every role and stage:

    const task = FlowControl.completionQueue.then(run, run)
    FlowControl.completionQueue = task.then(() => undefined, () => undefined)

By the semantics of `Promise.prototype.then`, the `run` of the `n`-th
submitted request starts exactly when the `n-1`-st task settles — on
fulfillment *or* rejection (`then(run, run)`) — and the stored tail
promise swallows the task's own outcome (`then(() => undefined, () =>
undefined)`), so a rejected generation call never breaks the chain for
later submissions.  The chain of `n` submissions therefore denotes the
event trace `queueTrace`: requests start and settle strictly in
submission order, one at a time.  `outcomes i` records whether the `i`-th
request's generation call succeeds. -/

inductive SchedEvent
  | start (i : Nat)
  | settle (i : Nat) (ok : Bool)
deriving DecidableEq, Repr

/-- The event trace denoted by the completion queue after `n`
submissions. -/
def queueTrace (outcomes : Nat → Bool) : Nat → List SchedEvent
  | 0 => []
  | n + 1 => queueTrace outcomes n ++ [.start n, .settle n (outcomes n)]

def startedIn (t : List SchedEvent) : List Nat :=
  t.filterMap fun e => match e with | .start i => some i | _ => none

def settledIn (t : List SchedEvent) : List Nat :=
  t.filterMap fun e => match e with | .settle i _ => some i | _ => none

/-- Requests started but not yet settled at a point of the trace. -/
def inFlight (t : List SchedEvent) : List Nat :=
  (startedIn t).filter fun i => ¬ i ∈ settledIn t

theorem length_queueTrace (outcomes : Nat → Bool) :
    ∀ n, (queueTrace outcomes n).length = 2 * n
  | 0 => rfl
  | n + 1 => by
    simp [queueTrace, length_queueTrace outcomes n]
    omega

theorem startedIn_queueTrace (outcomes : Nat → Bool) :
    ∀ n, startedIn (queueTrace outcomes n) = List.range n
  | 0 => rfl
  | n + 1 => by
    simp [queueTrace, startedIn, List.filterMap_append, List.range_succ,
      ← startedIn_queueTrace outcomes n]

theorem settledIn_queueTrace (outcomes : Nat → Bool) :
    ∀ n, settledIn (queueTrace outcomes n) = List.range n
  | 0 => rfl
  | n + 1 => by
    simp [queueTrace, settledIn, List.filterMap_append, List.range_succ,
      ← settledIn_queueTrace outcomes n]

theorem inFlight_queueTrace (outcomes : Nat → Bool) (n : Nat) :
    inFlight (queueTrace outcomes n) = [] := by
  unfold inFlight
  rw [startedIn_queueTrace, settledIn_queueTrace]
  refine List.filter_eq_nil_iff.mpr fun i hi => by simpa using hi

theorem startedIn_append (a b : List SchedEvent) :
    startedIn (a ++ b) = startedIn a ++ startedIn b := by
  simp [startedIn, List.filterMap_append]

theorem settledIn_append (a b : List SchedEvent) :
    settledIn (a ++ b) = settledIn a ++ settledIn b := by
  simp [settledIn, List.filterMap_append]

theorem inFlight_mid (outcomes : Nat → Bool) (m : Nat) :
    inFlight (queueTrace outcomes m ++ [.start m]) = [m] := by
  unfold inFlight
  rw [startedIn_append, settledIn_append, startedIn_queueTrace,
    settledIn_queueTrace]
  have hs : startedIn [SchedEvent.start m] = [m] := rfl
  have he : settledIn [SchedEvent.start m] = [] := rfl
  rw [hs, he, List.append_nil, List.filter_append]
  have h1 : (List.range m).filter (fun i => ¬ i ∈ List.range m) = [] :=
    List.filter_eq_nil_iff.mpr fun i hi => by simpa using hi
  have h2 : [m].filter (fun i => ¬ i ∈ List.range m) = [m] := by
    simp [List.filter_cons]
  rw [h1, h2, List.nil_append]

theorem queueTrace_take_even (outcomes : Nat → Bool) :
    ∀ n m, m ≤ n → (queueTrace outcomes n).take (2 * m) = queueTrace outcomes m
  | 0, 0, _ => rfl
  | n + 1, m, h => by
    by_cases hm : m ≤ n
    · rw [queueTrace, List.take_append_of_le_length
        (by rw [length_queueTrace]; omega)]
      exact queueTrace_take_even outcomes n m hm
    · have hme : m = n + 1 := by omega
      subst hme
      refine List.take_of_length_le ?_
      rw [queueTrace, List.length_append, length_queueTrace]
      simp
      omega

theorem queueTrace_take_odd (outcomes : Nat → Bool) :
    ∀ n m, m < n →
      (queueTrace outcomes n).take (2 * m + 1)
        = queueTrace outcomes m ++ [.start m]
  | n + 1, m, h => by
    by_cases hm : m < n
    · rw [queueTrace, List.take_append_of_le_length
        (by rw [length_queueTrace]; omega)]
      exact queueTrace_take_odd outcomes n m hm
    · have hme : m = n := by omega
      subst hme
      rw [queueTrace]
      have hlen : 2 * m + 1 = (queueTrace outcomes m).length + 1 := by
        rw [length_queueTrace]
      rw [hlen, List.take_append]
      rfl

theorem queueTrace_getElem (outcomes : Nat → Bool) :
    ∀ n m, m < n →
      (queueTrace outcomes n)[2 * m]? = some (.start m)
      ∧ (queueTrace outcomes n)[2 * m + 1]? = some (.settle m (outcomes m))
  | n + 1, m, h => by
    by_cases hm : m < n
    · have ih := queueTrace_getElem outcomes n m hm
      rw [queueTrace]
      rw [List.getElem?_append_left (by rw [length_queueTrace]; omega),
        List.getElem?_append_left (by rw [length_queueTrace]; omega)]
      exact ih
    · have hme : m = n := by omega
      subst hme
      rw [queueTrace]
      constructor
      · rw [List.getElem?_append_right (by rw [length_queueTrace])]
        rw [length_queueTrace]
        simp
      · rw [List.getElem?_append_right (by rw [length_queueTrace]; omega)]
        rw [length_queueTrace]
        have : 2 * m + 1 - 2 * m = 1 := by omega
        rw [this]
        rfl

/-- **C7.**  The completion queue serializes all generation requests
globally: (a) at every point of the trace (every prefix) at most one
request is in flight; (b) for any two requests submitted in order
`i < j`, request `i` settles — successfully or not — at a strictly
earlier trace position than the one at which request `j` starts; and
(c) every submitted request starts, regardless of the success or failure
of any earlier request. -/
theorem scheduler_serialization (outcomes : Nat → Bool) (n : Nat) :
    (∀ pre, pre <+: queueTrace outcomes n → (inFlight pre).length ≤ 1)
    ∧ (∀ i j, i < j → j < n →
        (queueTrace outcomes n)[2 * i + 1]? = some (.settle i (outcomes i))
        ∧ (queueTrace outcomes n)[2 * j]? = some (.start j)
        ∧ 2 * i + 1 < 2 * j)
    ∧ (∀ j, j < n → SchedEvent.start j ∈ queueTrace outcomes n) := by
  refine ⟨?_, ?_, ?_⟩
  · intro pre hpre
    have hpre' : pre = (queueTrace outcomes n).take pre.length :=
      (List.prefix_iff_eq_take.mp hpre)
    have hlen : pre.length ≤ 2 * n := by
      have := hpre.length_le
      rwa [length_queueTrace] at this
    rcases Nat.even_or_odd pre.length with ⟨m, hm⟩ | ⟨m, hm⟩
    · rw [hpre', hm]
      have hmn : m ≤ n := by omega
      rw [show m + m = 2 * m by omega, queueTrace_take_even outcomes n m hmn,
        inFlight_queueTrace]
      simp
    · rw [hpre', hm]
      have hmn : m < n := by omega
      rw [queueTrace_take_odd outcomes n m hmn, inFlight_mid]
      simp
  · intro i j hij hjn
    obtain ⟨-, hsettle⟩ := queueTrace_getElem outcomes n i (by omega)
    obtain ⟨hstart, -⟩ := queueTrace_getElem outcomes n j hjn
    exact ⟨hsettle, hstart, by omega⟩
  · intro j hjn
    obtain ⟨hstart, -⟩ := queueTrace_getElem outcomes n j hjn
    exact List.getElem?_mem hstart

theorem scheduler_serialization_witness :
    (inFlight ((queueTrace (fun i => !(i == 0)) 2).take 3)).length ≤ 1
    ∧ SchedEvent.start 1 ∈ queueTrace (fun i => !(i == 0)) 2 :=
  ⟨(scheduler_serialization (fun i => !(i == 0)) 2).1 _ (List.take_prefix 3 _),
    (scheduler_serialization (fun i => !(i == 0)) 2).2.2 1 (by decide)⟩

/-! ## Meeting Summarizer (`services/memory/meetingSummarizer.ts`)

`today` stands for `new Date().toISOString().split('T')[0]` and `mkCid i`
for the generated `controversy-${Date.now()}-${random}` id of the `i`-th
controversy.  `writeMemory` side effects are returned as a list of
`SummWrite`s in execution order. -/

/-- JS `\w` (`[A-Za-z0-9_]`). -/
def wordChar (c : Char) : Bool := c.isAlpha || c.isDigit || c == '_'

/-- First full match of `/needle(\w+)/`: the capture group of the first
position where the literal `needle` is followed by at least one word
character. -/
def matchAfter (needle : List Char) : List Char → Option (List Char)
  | [] => none
  | c :: t =>
    if prefixAt needle (c :: t) then
      let rest := (c :: t).drop needle.length
      let w := rest.takeWhile wordChar
      if w.length ≠ 0 then some w else matchAfter needle t
    else matchAfter needle t

/-- JS `Set` insertion. -/
def jsSetAdd (acc : List String) (s : String) : List String :=
  if s ∈ acc then acc else acc ++ [s]

namespace MeetingSummarizer

/-- `extractParticipants`: every non-`SYSTEM` role, first-seen order. -/
def extractParticipants (messages : List Message) : List String :=
  messages.foldl
    (fun roles m => if m.role ≠ "SYSTEM" then jsSetAdd roles m.role else roles) []

/-- `extractStages`: the `\w+` capture of `/进入阶段: (\w+)/` of each
`system` stage-transition message, first-seen order. -/
def extractStages (messages : List Message) : List String :=
  messages.foldl
    (fun stages m =>
      if m.type = .system ∧ jsIncludes m.content "进入阶段:" then
        match matchAfter "进入阶段: ".data m.content.data with
        | some w => jsSetAdd stages (String.mk w)
        | none => stages
      else stages)
    []

/-- Append a message to the most recently inserted stage group (the JS
`Array.from(map.keys()).pop()` idiom). -/
def appendToLast : List (String × List Message) → Message → List (String × List Message)
  | [], _ => []
  | [(k, ms)], m => [(k, ms ++ [m])]
  | p :: rest, m => p :: appendToLast rest m

/-- The stage-grouping loop of `buildStageByStageSummary`. -/
def stageGroupsStep (acc : List (String × List Message)) (m : Message) :
    List (String × List Message) :=
  if m.type = .system then
    if jsIncludes m.content "进入阶段:" then
      match matchAfter "进入阶段: ".data m.content.data with
      | some w =>
        let stage := String.mk w
        if acc.any (fun p => p.1 = stage) then acc else acc ++ [(stage, [])]
      | none => acc
    else acc
  else appendToLast acc m

/-- `buildStageByStageSummary`. -/
def buildStageByStageSummary (meeting : Meeting) : String :=
  let stageMessages := meeting.messages.foldl stageGroupsStep []
  stageMessages.foldl
    (fun content p =>
      content ++ "### " ++ p.1 ++ "\n\n"
        ++ p.2.foldl
            (fun c m =>
              c ++ "**" ++ m.role ++ "**: " ++ String.mk (jsTake 200 m.content.data)
                ++ (if 200 < m.content.data.length then "..." else "") ++ "\n\n")
            "")
    "## 讨论过程\n\n"

/-- `buildMeetingSummaryContent` (the `stages` parameter is accepted and
unused, as in the source). -/
def buildMeetingSummaryContent (meeting : Meeting) (participants : List String)
    (_stages : List String) : String :=
  let content := "# 会议摘要：" ++ meeting.topic ++ "\n\n"
  let content := content ++ "## 议题\n" ++ meeting.topic ++ "\n\n"
  let content := content ++
    (match meeting.description with
     | some d => if d.data.length ≠ 0 then d ++ "\n\n" else ""
     | none => "")
  let content := content ++ "## 参与角色\n"
    ++ participants.foldl (fun c role => c ++ "- **" ++ role ++ "**\n") "" ++ "\n"
  let content := content ++ buildStageByStageSummary meeting
  let content := content ++
    (match meeting.artifacts.finalDecision with
     | some fd =>
       "## 最终决策\n" ++ fd.decision ++ "\n\n" ++ "### 理由\n" ++ fd.reasoning ++ "\n\n"
     | none => "")
  let content := content ++
    (match meeting.artifacts.brainAnalysis with
     | some ba =>
       if ba.disagreements.length ≠ 0 then
         "## 争议点\n"
           ++ (ba.disagreements.enum.foldl
                (fun c p => c ++ toString (p.1 + 1) ++ ". " ++ p.2 ++ "\n") "")
           ++ "\n"
       else ""
     | none => "")
  content

structure MeetingSummaryFrontmatter where
  id : String
  mtype : String
  meetingId : String
  topic : String
  date : String
  participants : List String
  duration : Option Int
  tokenUsage : JQ
  stages : List String
deriving DecidableEq, Repr

structure MeetingSummaryMemory where
  frontmatter : MeetingSummaryFrontmatter
  content : String
deriving DecidableEq, Repr

/-- `generateMeetingSummary`. -/
def generateMeetingSummary (meeting : Meeting) (today : String) : MeetingSummaryMemory :=
  let summaryId := "meeting-summary-" ++ today ++ "-" ++ meeting.id
  let participants := extractParticipants meeting.messages
  let stages := extractStages meeting.messages
  let duration : Option Int :=
    match meeting.completedAt, meeting.startedAt with
    | some c, some s => some (Int.fdiv (c - s) 1000)
    | _, _ => none
  let content := buildMeetingSummaryContent meeting participants stages
  { frontmatter :=
      { id := summaryId
        mtype := "meeting_summary"
        meetingId := meeting.id
        topic := meeting.topic
        date := today
        participants := participants
        duration := duration
        tokenUsage := meeting.usage
        stages := stages }
    content := content }

/-- `assessImpact`. -/
def assessImpact (meeting : Meeting) (decision : FinalDecision) : String :=
  if jsIncludes decision.decision "实施" || jsIncludes decision.decision "启动" then
    "high"
  else if JQ.lt (meeting.budget.mul (JQ.lit 8 10)) meeting.usage then "high"
  else "medium"

def categoryKeywords : List (String × List String) :=
  [("财政", ["预算", "资金", "税收", "补贴", "成本"]),
   ("政策", ["政策", "法规", "标准", "规定"]),
   ("运营", ["流程", "实施", "执行", "操作"]),
   ("人事", ["人员", "任命", "组织", "团队"])]

/-- `categorizeDecision`. -/
def categorizeDecision (topic : String) (decision : FinalDecision) : String :=
  match categoryKeywords.find?
      (fun p => p.2.any fun kw =>
        jsIncludes topic kw || jsIncludes decision.decision kw) with
  | some p => p.1
  | none => "政策"

structure DecisionFrontmatter where
  id : String
  mtype : String
  meetingId : String
  topic : String
  date : String
  decisionMaker : String
  impact : String
  category : String
deriving DecidableEq, Repr

structure DecisionSummaryMemory where
  frontmatter : DecisionFrontmatter
  content : String
deriving DecidableEq, Repr

/-- `extractDecisionSummary`; throws (`Except.error`) when there is no
final decision. -/
def extractDecisionSummary (meeting : Meeting) (today : String) :
    Except String DecisionSummaryMemory :=
  match meeting.artifacts.finalDecision with
  | none => .error "No final decision found"
  | some finalDecision =>
    let decisionId := "decision-" ++ today ++ "-" ++ meeting.id
    let impact := assessImpact meeting finalDecision
    let category := categorizeDecision meeting.topic finalDecision
    let steps := ((finalDecision.nextSteps.enum.map
        (fun p => toString (p.1 + 1) ++ ". " ++ p.2)).intersperse "\n").foldl
      (· ++ ·) ""
    let content := "# 决策：" ++ finalDecision.decision ++ "\n\n"
      ++ "## 决策内容\n" ++ finalDecision.decision ++ "\n\n"
      ++ "## 决策理由\n" ++ finalDecision.reasoning ++ "\n\n"
      ++ "## 后续步骤\n" ++ (if steps.data.length ≠ 0 then steps else "暂无明确后续步骤")
      ++ "\n"
    .ok
      { frontmatter :=
          { id := decisionId
            mtype := "decision"
            meetingId := meeting.id
            topic := meeting.topic
            date := today
            decisionMaker := "PRIME"
            impact := impact
            category := category }
        content := content }

/-- `findInvolvedRoles`. -/
def findInvolvedRoles (messages : List Message) (disagreement : String) : List String :=
  let relevantMessages := messages.filter fun m =>
    jsIncludes m.content (String.mk (jsTake 20 disagreement.data))
      || jsIncludes disagreement (String.mk (jsTake 20 m.content.data))
  relevantMessages.foldl
    (fun roles m =>
      if m.role ≠ "SYSTEM" ∧ m.role ≠ "PRIME" then jsSetAdd roles m.role else roles)
    []

def resolvedKeywords : List String := ["达成一致", "同意", "接受", "解决"]

def partialKeywords : List String := ["进一步讨论", "需要研究", "保留意见"]

def resolutionScan : List Message → String
  | [] => "unresolved"
  | m :: rest =>
    if resolvedKeywords.any (fun kw => jsIncludes m.content kw) then "resolved"
    else if partialKeywords.any (fun kw => jsIncludes m.content kw) then "partial"
    else resolutionScan rest

/-- `determineResolutionStatus` (the disagreement argument is unused, as
in the source). -/
def determineResolutionStatus (meeting : Meeting) (_disagreement : String) : String :=
  resolutionScan (meeting.messages.filter fun m =>
    m.type = .statement ∧ jsIncludes m.id "-followup")

/-- `assessControversyImportance`. -/
def assessControversyImportance (disagreement : String) : String :=
  if ["根本性", "原则", "关键", "核心"].any (fun kw => jsIncludes disagreement kw) then
    "high"
  else if ["细节", "次要", "程序", "形式"].any (fun kw => jsIncludes disagreement kw) then
    "low"
  else "medium"

/-- Group the department statements by role, insertion-ordered. -/
def groupStatementsByRole (messages : List Message) : List (String × List Message) :=
  messages.foldl
    (fun acc m =>
      if acc.any (fun p => p.1 = m.role) then
        acc.map fun p => if p.1 = m.role then (p.1, p.2 ++ [m]) else p
      else acc ++ [(m.role, [m])])
    []

/-- `buildControversyContent`. -/
def buildControversyContent (disagreement : String) (messages : List Message) : String :=
  let relevantMessages := messages.filter fun m =>
    m.type = .statement ∧ m.role ∈ ["CRITIC", "FINANCE", "WORKS"]
  let roleMessages := groupStatementsByRole relevantMessages
  let content := "# 争议点\n\n" ++ disagreement ++ "\n\n"
  let content := roleMessages.foldl
    (fun c p =>
      c ++ "## " ++ p.1 ++ " 的观点\n\n"
        ++ p.2.foldl (fun cc m => cc ++ m.content ++ "\n\n") "")
    content
  content ++ "## 解决方式\n\n详见会议总结中的最终决策。\n"

structure ControversyFrontmatter where
  id : String
  mtype : String
  meetingId : String
  topic : String
  date : String
  involvedRoles : List String
  resolutionStatus : String
  importance : String
deriving DecidableEq, Repr

structure ControversyMemory where
  frontmatter : ControversyFrontmatter
  content : String
deriving DecidableEq, Repr

/-- `extractControversies`: one record per disagreement listed in the
brain-analysis artifact; none when the artifact is absent or lists no
disagreements. -/
def extractControversies (meeting : Meeting) (today : String)
    (mkCid : Nat → String) : List ControversyMemory :=
  match meeting.artifacts.brainAnalysis with
  | none => []
  | some brainAnalysis =>
    if brainAnalysis.disagreements.length = 0 then []
    else
      brainAnalysis.disagreements.enum.map fun p =>
        let disagreement := p.2
        { frontmatter :=
            { id := mkCid p.1
              mtype := "controversy"
              meetingId := meeting.id
              topic := meeting.topic ++ " - " ++ String.mk (jsTake 30 disagreement.data)
              date := today
              involvedRoles := findInvolvedRoles meeting.messages disagreement
              resolutionStatus := determineResolutionStatus meeting disagreement
              importance := assessControversyImportance disagreement }
          content := buildControversyContent disagreement meeting.messages }

structure RecordRef where
  id : String
  rtype : String
deriving DecidableEq, Repr

structure SummariesResult where
  meetingSummary : RecordRef
  decisionSummary : Option RecordRef
  controversies : List RecordRef
deriving DecidableEq, Repr

structure SummWrite where
  wtype : String
  wid : String
  content : String
deriving DecidableEq, Repr

/-- `generateMeetingSummaries`: the summary is always written; a decision
record is extracted and written exactly when the final-decision artifact
exists; one controversy record is written per disagreement. -/
def generateMeetingSummaries (meeting : Meeting) (today : String)
    (mkCid : Nat → String) : Except String (SummariesResult × List SummWrite) := do
  let meetingSummary := generateMeetingSummary meeting today
  let writes : List SummWrite :=
    [{ wtype := "meeting_summary", wid := meetingSummary.frontmatter.id,
       content := meetingSummary.content }]
  let (decisionRef, writes) ←
    match meeting.artifacts.finalDecision with
    | some _ => do
      let decisionSummary ← extractDecisionSummary meeting today
      pure (some { id := decisionSummary.frontmatter.id, rtype := "decision" },
        writes ++ [{ wtype := "decision", wid := decisionSummary.frontmatter.id,
                     content := decisionSummary.content }])
    | none => pure ((none : Option RecordRef), writes)
  let controversies := extractControversies meeting today mkCid
  let writes := writes ++ controversies.map fun c =>
    { wtype := "controversy", wid := c.frontmatter.id, content := c.content }
  pure
    ({ meetingSummary :=
        { id := meetingSummary.frontmatter.id, rtype := "meeting_summary" }
       decisionSummary := decisionRef
       controversies := controversies.map fun c =>
        { id := c.frontmatter.id, rtype := "controversy" } },
     writes)

/-- **C8.**  `generateMeetingSummaries` never throws — for every meeting
(in particular with the optional artifacts absent) it returns `ok`; it
returns and writes a decision record if and only if the final-decision
artifact exists (exactly one `decision` write in that case, none
otherwise); and it returns zero controversy records, writing none, when
the brain-analysis artifact is absent or lists no disagreements. -/
theorem filter_map_eq_nil {α β : Type _} (f : α → β) (p : β → Bool)
    (h : ∀ a, p (f a) = false) :
    ∀ l : List α, (l.map f).filter p = []
  | [] => rfl
  | a :: t => by
    simp [List.filter_cons, h a, filter_map_eq_nil f p h t]

theorem summarizer_best_effort (meeting : Meeting) (today : String)
    (mkCid : Nat → String) :
    ∃ r w, generateMeetingSummaries meeting today mkCid = .ok (r, w)
      ∧ (r.decisionSummary.isSome ↔ meeting.artifacts.finalDecision.isSome)
      ∧ (w.filter fun x => x.wtype == "decision").length
          = (if meeting.artifacts.finalDecision.isSome then 1 else 0)
      ∧ ((meeting.artifacts.brainAnalysis.map fun ba => ba.disagreements).getD [] = [] →
          r.controversies = [] ∧ (w.filter fun x => x.wtype == "controversy") = []) := by
  have hcontro :
      (meeting.artifacts.brainAnalysis.map fun ba => ba.disagreements).getD [] = [] →
        extractControversies meeting today mkCid = [] := by
    intro h
    unfold extractControversies
    cases hba : meeting.artifacts.brainAnalysis with
    | none => rfl
    | some ba =>
      rw [hba] at h
      simp only [Option.map_some', Option.getD_some] at h
      simp [h]
  have hdecfalse : ∀ c : ControversyMemory,
      ((({ wtype := "controversy", wid := c.frontmatter.id,
           content := c.content } : SummWrite).wtype == "decision")) = false := by
    intro c; rfl
  have hconfilter : ∀ c : ControversyMemory,
      (fun x : SummWrite => x.wtype == "controversy")
        ({ wtype := "controversy", wid := c.frontmatter.id,
           content := c.content } : SummWrite) = true := by
    intro c; rfl
  set ms := generateMeetingSummary meeting today with hms
  set contro := extractControversies meeting today mkCid with hcon
  cases hfd : meeting.artifacts.finalDecision with
  | none =>
    refine ⟨{ meetingSummary := { id := ms.frontmatter.id, rtype := "meeting_summary" }
              decisionSummary := none
              controversies := contro.map fun c =>
                { id := c.frontmatter.id, rtype := "controversy" } },
      [{ wtype := "meeting_summary", wid := ms.frontmatter.id, content := ms.content }]
        ++ contro.map fun c =>
          { wtype := "controversy", wid := c.frontmatter.id, content := c.content },
      ?_, ?_, ?_, ?_⟩
    · unfold generateMeetingSummaries
      rw [hfd]
      rfl
    · simp [hfd]
    · simp only [hfd, Option.isSome_none, Bool.false_eq_true, if_false,
        List.filter_append]
      rw [filter_map_eq_nil _ _ hdecfalse]
      rfl
    · intro h
      have hc : contro = [] := hcontro h
      constructor
      · simp [hc]
      · simp [hc, List.filter_append, List.filter_cons]
  | some fd =>
    have hds : ∃ ds, extractDecisionSummary meeting today = .ok ds := by
      unfold extractDecisionSummary
      rw [hfd]
      exact ⟨_, rfl⟩
    obtain ⟨ds, hds⟩ := hds
    refine ⟨{ meetingSummary := { id := ms.frontmatter.id, rtype := "meeting_summary" }
              decisionSummary := some { id := ds.frontmatter.id, rtype := "decision" }
              controversies := contro.map fun c =>
                { id := c.frontmatter.id, rtype := "controversy" } },
      [{ wtype := "meeting_summary", wid := ms.frontmatter.id, content := ms.content }]
        ++ [{ wtype := "decision", wid := ds.frontmatter.id, content := ds.content }]
        ++ contro.map fun c =>
          { wtype := "controversy", wid := c.frontmatter.id, content := c.content },
      ?_, ?_, ?_, ?_⟩
    · unfold generateMeetingSummaries
      rw [hfd, hds]
      rfl
    · simp [hfd]
    · simp only [hfd, Option.isSome_some, if_true, List.filter_append]
      rw [filter_map_eq_nil _ _ hdecfalse]
      rfl
    · intro h
      have hc : contro = [] := hcontro h
      constructor
      · simp [hc]
      · simp [hc, List.filter_append, List.filter_cons]

/-- A meeting with no optional artifacts at all. -/
def bareMeeting : Meeting :=
  { id := "meet-3", topic := "空会议", budget := JQ.lit 12000 1, usage := JQ.zero }

theorem summarizer_best_effort_witness :
    ∃ r w, generateMeetingSummaries bareMeeting "2026-01-01" (fun i => "c" ++ toString i)
        = .ok (r, w)
      ∧ (r.decisionSummary.isSome ↔ bareMeeting.artifacts.finalDecision.isSome)
      ∧ (w.filter fun x => x.wtype == "decision").length
          = (if bareMeeting.artifacts.finalDecision.isSome then 1 else 0)
      ∧ ((bareMeeting.artifacts.brainAnalysis.map fun ba => ba.disagreements).getD [] = [] →
          r.controversies = [] ∧ (w.filter fun x => x.wtype == "controversy") = []) :=
  summarizer_best_effort bareMeeting "2026-01-01" (fun i => "c" ++ toString i)

end MeetingSummarizer

/-! ## Flow Controller stage executors (`flowControl.ts`)

The generation collaborator (`completeForRole`), the persona store, the
`Math.random` shuffle, the regex + `JSON.parse` extraction of the BRAIN
analysis and the `JSON.stringify` rendering of the analysis artifact are
abstracted as the oracle record `GenOracle`, universally quantified in
the theorem; `nowId`/`nowTs` stand for the `Date.now()` /
`toISOString()` values of the stage execution, and the context package of
the issue brief is passed as the awaited `(content, tokens)` pair.
WebSocket pushes are fire-and-forget and not modelled. -/

namespace FlowControl

def speechCharLimit : Nat := 50

/-- `Math.ceil(text.length / 4)`. -/
def estimateTokens (text : String) : Nat := (jsLen text + 3) / 4

structure CompletionResponse where
  content : String
  usageTotalTokens : Option JQ := none
deriving DecidableEq, Repr

/-- `response.usage?.totalTokens || this.estimateTokens(text)` (`0` is
falsy in JS). -/
def tokensOr (usage : Option JQ) (text : String) : JQ :=
  match usage with
  | some u => if u.truthy then u else JQ.ofNat (estimateTokens text)
  | none => JQ.ofNat (estimateTokens text)

def responseTokens (r : CompletionResponse) : JQ :=
  tokensOr r.usageTotalTokens r.content

def jsLowerStr (s : String) : String := String.mk (jsToLower s.data)

def jsUpperStr (s : String) : String := String.mk (s.data.map Char.toUpper)

def jsTrimStr (s : String) : String := String.mk (jsTrimL s.data)

/-- `enforceSpeechLimit`: collapse whitespace runs, trim, and cut to the
first 50 code points. -/
def enforceSpeechLimit (content : String) : String :=
  let normalized := jsTrimL (collapseWs content.data)
  let chars := normalized
  if chars.length ≤ speechCharLimit then String.mk normalized
  else String.mk (chars.take speechCharLimit)

/-- `withSpeechLimitInstruction`. -/
def withSpeechLimitInstruction (prompt : String) : String :=
  prompt ++ "\n\n硬性要求：你的最终发言必须控制在" ++ toString speechCharLimit
    ++ "个中文字符以内，不要换行，不要分点。"

/-- `getRoleFocusInstruction`. -/
def getRoleFocusInstruction (role : String) : String :=
  let upperRole := jsUpperStr role
  if upperRole == "CRITIC" then
    "你是风险审查官，只能从风险、漏洞、反例角度发言，不要给预算细节。"
  else if upperRole == "FINANCE" then
    "你是财政官，只能从成本、收益、预算约束角度发言，必须包含金额或成本判断。"
  else if upperRole == "WORKS" then
    "你是实务执行官，只能从落地步骤、资源安排、时间节点角度发言。"
  else "请严格按照你的角色定位发言。"

/-- `getSelectedRoleIds`. -/
def getSelectedRoleIds (meeting : Meeting) : List String :=
  let selected := match meeting.selectedRoleIds with
    | some l => l
    | none => []
  if selected.length = 0 then ["prime", "brain", "critic", "finance", "works"]
  else (selected.map jsLowerStr).foldl jsSetAdd []

/-- `getDiscussionRoles`. -/
def getDiscussionRoles (meeting : Meeting) : List String :=
  let roles := ((getSelectedRoleIds meeting).filter
    (fun role => ¬ role ∈ ["prime", "brain", "clerk"])).map jsUpperStr
  if roles.length ≠ 0 then roles else ["CRITIC", "FINANCE", "WORKS"]

structure GenOracle where
  /-- `getSystemPrompt(role)`, already defaulted by `|| ''`. -/
  systemPrompt : String → String
  /-- `completeForRole(role, messages, …)`: the generated response or the
  surfaced provider error. -/
  complete : String → List (String × String) → Except String CompletionResponse
  /-- the `match`/`JSON.parse` extraction of the BRAIN analysis. -/
  parseAnalysis : String → Option ParsedAnalysis
  /-- the `Math.random` Fisher–Yates shuffle of the speaking roles. -/
  shuffle : List String → List String
  /-- `JSON.stringify(brainAnalysis, null, 2)`. -/
  stringifyAnalysis : BrainAnalysis → String

/-- Join with a separator (JS `Array.prototype.join`). -/
def jsJoin (sep : String) (parts : List String) : String :=
  ((parts.intersperse sep).foldl (· ++ ·) "")

/-- `executeIssueBrief`. -/
def executeIssueBrief (o : GenOracle) (meeting : Meeting)
    (contextPackage : String × Nat) (nowId nowTs : String) :
    Except String (List Message × IssueBrief × JQ) := do
  let systemPrompt := o.systemPrompt "prime"
  let userPrompt := withSpeechLimitInstruction
    ("请为以下议题创建简报:\n\n议题: " ++ meeting.topic ++ "\n"
      ++ (match meeting.description with
          | some d => if d.data.length ≠ 0 then "描述: " ++ d else ""
          | none => "")
      ++ "\n\n"
      ++ (if 0 < contextPackage.2 then
            "\n相关背景:\n" ++ contextPackage.1 ++ "\n"
          else "")
      ++ "(注：以上为历史相关决策和经验，供参考)\n")
  let response ← o.complete "prime"
    [("system", systemPrompt), ("user", userPrompt)]
  let message : Message :=
    { id := "msg-" ++ nowId
      timestamp := nowTs
      role := "PRIME"
      type := .statement
      content := enforceSpeechLimit response.content }
  let artifact : IssueBrief :=
    { topic := meeting.topic
      background := response.content
      keyConsiderations := [] }
  pure ([message], artifact, responseTokens response)

/-- One entry of the compressed-context digest of
`executeDepartmentSpeeches`. -/
def digestLine (m : Message) : String :=
  if m.type = .compressed then
    "[" ++ (match m.metadata with
            | some md =>
              if md.compressionMethod = "" then "summary" else md.compressionMethod
            | none => "summary")
      ++ "] "
      ++ (match m.metadata with
          | some md =>
            if md.originalCount = 0 then "?" else toString md.originalCount
          | none => "?")
      ++ " 条消息已压缩"
  else
    m.role ++ ": " ++ String.mk (jsTake 150 m.content.data)
      ++ (if 150 < m.content.data.length then "..." else "")

/-- The speaking loop of `executeDepartmentSpeeches`. -/
def deptLoop (o : GenOracle) (meeting : Meeting) (baseDiscussionSoFar : String)
    (nowId nowTs : String) :
    List String → List Message → JQ → Except String (List Message × JQ)
  | [], messages, totalTokens => pure (messages, totalTokens)
  | role :: rest, messages, totalTokens => do
    let systemPrompt := o.systemPrompt (jsLowerStr role)
    let roleFocus := getRoleFocusInstruction role
    let liveDiscussionSoFar := jsJoin "\n\n"
      ((baseDiscussionSoFar
          :: messages.map fun m => m.role ++ ": " ++ m.content).filter
        fun s => s.data.length ≠ 0)
    let userPrompt := withSpeechLimitInstruction
      ("议题: " ++ meeting.topic ++ "\n\n角色要求:\n" ++ roleFocus
        ++ "\n\n已发言内容:\n" ++ liveDiscussionSoFar
        ++ "\n\n请结合以上发言，提供你的完整意见和建议。")
    let response ← o.complete (jsLowerStr role)
      [("system", systemPrompt), ("user", userPrompt)]
    let message : Message :=
      { id := "msg-" ++ nowId ++ "-" ++ role
        timestamp := nowTs
        role := role
        type := .statement
        content := enforceSpeechLimit response.content }
    deptLoop o meeting baseDiscussionSoFar nowId nowTs rest
      (messages ++ [message]) (totalTokens.add (responseTokens response))

/-- `executeDepartmentSpeeches`; `compressNow` is the timestamp the
compressor would use for a synthetic message. -/
def executeDepartmentSpeeches (o : GenOracle) (meeting : Meeting)
    (nowId nowTs compressNow : String) : Except String (List Message × JQ) :=
  let roles := o.shuffle (getDiscussionRoles meeting)
  if roles.length = 0 then
    pure ([{ id := "msg-" ++ nowId ++ "-system"
             timestamp := nowTs
             role := "SYSTEM"
             type := .system
             content := "无可用部门角色，跳过部门发言阶段。" }], JQ.ofNat 0)
  else
    let contextMessages :=
      ContextCompressor.compressIfNeeded meeting.messages compressNow
    let baseDiscussionSoFar := jsJoin "\n\n" (contextMessages.map digestLine)
    deptLoop o meeting baseDiscussionSoFar nowId nowTs roles [] (JQ.ofNat 0)

/-- `getClarification`. -/
def getClarification (o : GenOracle) (meeting : Meeting)
    (role question : String) (nowId nowTs : String) :
    Except String (Message × JQ) := do
  let systemPrompt := o.systemPrompt (jsLowerStr role)
  let discussion := jsJoin "\n\n"
    ((meeting.messages.filter fun m =>
        m.role ∈ ["CRITIC", "FINANCE", "WORKS", "BRAIN"]).map
      fun m => m.role ++ ": " ++ m.content)
  let userPrompt := withSpeechLimitInstruction
    ("议题: " ++ meeting.topic ++ "\n\n之前的讨论：\n" ++ discussion
      ++ "\n\nBRAIN 请你澄清以下问题：\n" ++ question ++ "\n\n请提供详细回答。")
  let response ← o.complete (jsLowerStr role)
    [("system", systemPrompt), ("user", userPrompt)]
  let message : Message :=
    { id := "msg-" ++ nowId ++ "-" ++ role ++ "-clarification"
      timestamp := nowTs
      role := jsUpperStr role
      type := .statement
      content := enforceSpeechLimit response.content }
  pure (message, responseTokens response)

/-- The clarification step of the BRAIN intervention: `if
(analysis?.shouldIntervene && analysis?.clarificationNeeded?.role)` (an
empty role string is falsy) followed by the participating-role check. -/
def brainClarificationStep (o : GenOracle) (meeting : Meeting)
    (participatingRoles : List String) (messages : List Message)
    (nowId nowTs : String) :
    Option ParsedAnalysis → Except String (List Message)
  | some a =>
    if a.shouldIntervene = true then
      match a.clarificationRole with
      | some targetRole =>
        if targetRole.data.length ≠ 0 then
          if participatingRoles.contains (jsUpperStr targetRole) = true then do
            let clarification ← getClarification o meeting targetRole
              (a.clarificationQuestion.getD "undefined") nowId nowTs
            pure (messages ++ [clarification.1])
          else pure messages
        else pure messages
      | none => pure messages
    else pure messages
  | none => pure messages

/-- The `try` body of `executeBrainIntervention`. -/
def brainBody (o : GenOracle) (meeting : Meeting) (nowId nowTs : String) :
    Except String (List Message × BrainAnalysis × JQ) := do
  let participatingRoles := getDiscussionRoles meeting
  let systemPrompt := "你是内阁主脑（BRAIN），负责分析和引导讨论。\n\n你的任务：\n1. 分析第一轮部门发言\n2. 识别共识点和分歧点\n3. 找出需要澄清的关键问题\n4. 如有必要，指定某个角色对特定问题进行阐述\n\n请以JSON格式回复分析结果。"
  let recentDiscussion := jsJoin "\n\n"
    ((meeting.messages.filter fun m => m.role ∈ participatingRoles).map
      fun m => m.role ++ ": " ++ m.content)
  let userPrompt := withSpeechLimitInstruction
    ("议题: " ++ meeting.topic ++ "\n\n第一轮部门发言：\n" ++ recentDiscussion
      ++ "\n\n请分析以上讨论，并返回：\n\x7b\n  \"analysis\": \"对整体讨论的分析\",\n  \"consensus\": [\"共识点1\", \"共识点2\"],\n  \"disagreements\": [\"分歧点1\", \"分歧点2\"],\n  \"clarificationNeeded\": \x7b\n    \"role\": \"CRITIC|FINANCE|WORKS\",\n    \"question\": \"需要该角色澄清的问题\"\n  \x7d,\n  \"shouldIntervene\": true|false\n\x7d\n\n如果没有需要澄清的问题，将 shouldIntervene 设为 false，clarificationNeeded 设为 null。")
  let response ← o.complete "brain"
    [("system", systemPrompt), ("user", userPrompt)]
  let message : Message :=
    { id := "msg-" ++ nowId ++ "-brain"
      timestamp := nowTs
      role := "BRAIN"
      type := .statement
      content := enforceSpeechLimit response.content }
  let messages := [message]
  let analysis := o.parseAnalysis response.content
  let messages ← brainClarificationStep o meeting participatingRoles messages
    nowId nowTs analysis
  let artifact : BrainAnalysis :=
    { analysis := response.content
      parsed := analysis
      consensus := (analysis.bind fun a => a.consensus).getD []
      disagreements := (analysis.bind fun a => a.disagreements).getD [] }
  pure (messages, artifact, responseTokens response)

/-- `executeBrainIntervention`: the `try`/`catch` with the fixed fallback
message and neutral artifact. -/
def executeBrainIntervention (o : GenOracle) (meeting : Meeting)
    (nowId nowTs : String) : List Message × BrainAnalysis × JQ :=
  match brainBody o meeting nowId nowTs with
  | .ok r => r
  | .error _ =>
    ([{ id := "msg-" ++ nowId ++ "-brain-fallback"
        timestamp := nowTs
        role := "BRAIN"
        type := .statement
        content := "讨论已进行，进入总结阶段。" }],
      { analysis := "分析失败", parsed := none, consensus := [], disagreements := [] },
      JQ.ofNat 100)

/-- `executePrimeSummary`. -/
def executePrimeSummary (o : GenOracle) (meeting : Meeting)
    (nowId nowTs : String) : Except String (List Message × Summary × JQ) := do
  let systemPrompt := o.systemPrompt "prime"
  let participatingRoles := getDiscussionRoles meeting
  let discussion := jsJoin "\n\n"
    ((meeting.messages.filter fun m =>
        m.role ∈ participatingRoles ∨ m.role = "BRAIN").map
      fun m => m.role ++ ": " ++ m.content)
  let analysisContext :=
    match meeting.artifacts.brainAnalysis with
    | some ba => "\n\n主脑分析结果：\n" ++ o.stringifyAnalysis ba
    | none => ""
  let userPrompt := withSpeechLimitInstruction
    ("议题: " ++ meeting.topic ++ "\n\n各部门发言及主脑分析：\n" ++ discussion
      ++ analysisContext
      ++ "\n\n请作为总理，提供一份结构化总结，包含：\n1. **核心观点**：各部门的主要观点\n2. **共识点**：各方达成一致的地方\n3. **分歧点**：需要进一步讨论的问题\n4. **后续方向**：第二轮讨论需要聚焦的重点\n\n请用清晰的标题和段落组织回答。")
  let response ← o.complete "prime"
    [("system", systemPrompt), ("user", userPrompt)]
  let message : Message :=
    { id := "msg-" ++ nowId ++ "-prime-summary"
      timestamp := nowTs
      role := "PRIME"
      type := .statement
      content := enforceSpeechLimit response.content }
  let artifact : Summary :=
    { summary := response.content, structureLabel := some "PRIME总结" }
  pure ([message], artifact, responseTokens response)

def noResponseSignals : List String :=
  ["NO_RESPONSE", "不发言", "无需补充", "无补充", "不需要补充", "总结已涵盖", "无新增观点"]

/-- The speaking loop of `executeFollowUpDiscussion`. -/
def followUpLoop (o : GenOracle) (meeting : Meeting)
    (primeSummaryContent discussionPoints latestUserContent : String)
    (nowId nowTs : String) :
    List String → List Message → JQ → Except String (List Message × JQ)
  | [], messages, totalTokens => pure (messages, totalTokens)
  | role :: rest, messages, totalTokens => do
    let roleSystemPrompt := o.systemPrompt (jsLowerStr role)
    let roleFocus := getRoleFocusInstruction role
    let followupPrompt := withSpeechLimitInstruction
      ("议题: " ++ meeting.topic ++ "\n\n群主总结：\n" ++ primeSummaryContent
        ++ "\n\n" ++ discussionPoints
        ++ "\n\n用户最新追加意见：\n" ++ latestUserContent
        ++ "\n\n角色要求：\n" ++ roleFocus
        ++ "\n\n请判断是否需要继续发言：\n- 如果需要补充或回应分歧点，请直接给出你的发言。\n- 如果群主总结已充分涵盖你的观点，请仅回复 \"NO_RESPONSE\"。\n\n注意：第二轮重点是对分歧点的回应和补充。")
    let followup ← o.complete (jsLowerStr role)
      [("system", roleSystemPrompt), ("user", followupPrompt)]
    let content := enforceSpeechLimit (jsTrimStr followup.content)
    let shouldSkip := noResponseSignals.any fun signal => jsIncludes content signal
    if shouldSkip then
      followUpLoop o meeting primeSummaryContent discussionPoints
        latestUserContent nowId nowTs rest messages
        (totalTokens.add (tokensOr followup.usageTotalTokens content))
    else
      let followupMessage : Message :=
        { id := "msg-" ++ nowId ++ "-" ++ role ++ "-followup"
          timestamp := nowTs
          role := role
          type := .statement
          content := content }
      followUpLoop o meeting primeSummaryContent discussionPoints
        latestUserContent nowId nowTs rest (messages ++ [followupMessage])
        (totalTokens.add (tokensOr followup.usageTotalTokens content))

/-- `executeFollowUpDiscussion`. -/
def executeFollowUpDiscussion (o : GenOracle) (meeting : Meeting)
    (nowId nowTs : String) : Except String (List Message × JQ) :=
  let roles := o.shuffle (getDiscussionRoles meeting)
  if roles.length = 0 then pure ([], JQ.ofNat 0)
  else
    let primeSummary := meeting.messages.find? fun m =>
      jsIncludes m.id "prime-summary"
    let primeSummaryContent :=
      match primeSummary with
      | some m => if m.content.data.length ≠ 0 then m.content else "（无）"
      | none => "（无）"
    let discussionPoints :=
      match meeting.artifacts.brainAnalysis with
      | some ba =>
        if 0 < ba.disagreements.length then
          "需要重点讨论的分歧点：\n"
            ++ jsJoin "\n" (ba.disagreements.enum.map
                fun p => toString (p.1 + 1) ++ ". " ++ p.2)
        else "基于群主总结，请判断是否需要补充观点。"
      | none => "基于群主总结，请判断是否需要补充观点。"
    let latestUserMessage := meeting.messages.reverse.find? fun m =>
      m.role = "USER"
    let latestUserContent :=
      match latestUserMessage with
      | some m => if m.content.data.length ≠ 0 then m.content else "（无）"
      | none => "（无）"
    followUpLoop o meeting primeSummaryContent discussionPoints
      latestUserContent nowId nowTs roles [] (JQ.ofNat 0)

/-- `executePrimeDecision`. -/
def executePrimeDecision (o : GenOracle) (meeting : Meeting)
    (nowId nowTs : String) : Except String (List Message × FinalDecision × JQ) := do
  let systemPrompt := o.systemPrompt "prime"
  let discussion := jsJoin "\n\n"
    (meeting.messages.map fun m => m.role ++ ": " ++ m.content)
  let userPrompt := withSpeechLimitInstruction
    ("基于以下讨论，请做出最终决定:\n\n议题: " ++ meeting.topic
      ++ "\n\n讨论内容:\n" ++ discussion
      ++ "\n\n请提供:\n1. 决定\n2. 理由\n3. 后续步骤")
  let response ← o.complete "prime"
    [("system", systemPrompt), ("user", userPrompt)]
  let message : Message :=
    { id := "msg-" ++ nowId
      timestamp := nowTs
      role := "PRIME"
      type := .statement
      content := enforceSpeechLimit response.content }
  let artifact : FinalDecision :=
    { decision := response.content
      reasoning := "基于各部门意见的综合决策"
      nextSteps := [] }
  pure ([message], artifact, responseTokens response)

/-! ### The speech limit invariant (C10) -/

theorem enforceSpeechLimit_eq (s : String) :
    enforceSpeechLimit s
      = String.mk ((jsTrimL (collapseWs s.data)).take speechCharLimit) := by
  unfold enforceSpeechLimit
  dsimp only
  by_cases h : (jsTrimL (collapseWs s.data)).length ≤ speechCharLimit
  · rw [if_pos h, List.take_of_length_le h]
  · rw [if_neg h]

theorem enforceSpeechLimit_length (s : String) :
    (enforceSpeechLimit s).data.length ≤ speechCharLimit := by
  rw [enforceSpeechLimit_eq]
  simp [List.length_take]

/-- A stored content that is the whitespace-normalized, 50-character
truncation of some generated text. -/
def speechLimited (c : String) : Prop := ∃ s, c = enforceSpeechLimit s

theorem except_bind_ok {α β : Type _} (x : Except String α)
    (f : α → Except String β) (b : β) (h : (x >>= f) = .ok b) :
    ∃ a, x = .ok a ∧ f a = .ok b := by
  cases x with
  | error e => simp [Bind.bind, Except.bind] at h
  | ok a => exact ⟨a, rfl, by simpa [Bind.bind, Except.bind] using h⟩

theorem except_pure_ok {α : Type _} {a b : α}
    (h : (pure a : Except String α) = .ok b) : a = b := by
  simpa [pure, Except.pure] using h

/-- The per-message property of C10. -/
def msgLimited (m : Message) : Prop := m.role ≠ "SYSTEM" → speechLimited m.content

theorem deptLoop_limited (o : GenOracle) (meeting : Meeting)
    (base nowId nowTs : String) :
    ∀ (roles : List String) (messages : List Message) (total : JQ),
      (∀ m ∈ messages, msgLimited m) →
      ∀ r, deptLoop o meeting base nowId nowTs roles messages total = .ok r →
        ∀ m ∈ r.1, msgLimited m := by
  intro roles
  induction roles with
  | nil =>
    intro messages total hinv r hok m hm
    have := except_pure_ok hok
    subst this
    exact hinv m hm
  | cons role rest ih =>
    intro messages total hinv r hok m hm
    unfold deptLoop at hok
    obtain ⟨resp, -, hrest⟩ := except_bind_ok _ _ _ hok
    refine ih _ _ ?_ r hrest m hm
    intro x hx
    rcases List.mem_append.mp hx with hx | hx
    · exact hinv x hx
    · rcases List.mem_singleton.mp hx with rfl
      exact fun _ => ⟨resp.content, rfl⟩

theorem followUpLoop_limited (o : GenOracle) (meeting : Meeting)
    (ps dp lu nowId nowTs : String) :
    ∀ (roles : List String) (messages : List Message) (total : JQ),
      (∀ m ∈ messages, msgLimited m) →
      ∀ r, followUpLoop o meeting ps dp lu nowId nowTs roles messages total = .ok r →
        ∀ m ∈ r.1, msgLimited m := by
  intro roles
  induction roles with
  | nil =>
    intro messages total hinv r hok m hm
    have := except_pure_ok hok
    subst this
    exact hinv m hm
  | cons role rest ih =>
    intro messages total hinv r hok m hm
    unfold followUpLoop at hok
    obtain ⟨resp, -, hrest⟩ := except_bind_ok _ _ _ hok
    by_cases hskip : (noResponseSignals.any fun signal =>
        jsIncludes (enforceSpeechLimit (jsTrimStr resp.content)) signal) = true
    · rw [if_pos hskip] at hrest
      exact ih _ _ hinv r hrest m hm
    · rw [if_neg hskip] at hrest
      refine ih _ _ ?_ r hrest m hm
      intro x hx
      rcases List.mem_append.mp hx with hx | hx
      · exact hinv x hx
      · rcases List.mem_singleton.mp hx with rfl
        exact fun _ => ⟨jsTrimStr resp.content, rfl⟩

theorem getClarification_limited (o : GenOracle) (meeting : Meeting)
    (role question nowId nowTs : String) :
    ∀ r, getClarification o meeting role question nowId nowTs = .ok r →
      speechLimited r.1.content := by
  intro r hok
  unfold getClarification at hok
  obtain ⟨resp, -, hpure⟩ := except_bind_ok _ _ _ hok
  have := except_pure_ok hpure
  subst this
  exact ⟨resp.content, rfl⟩

theorem brainClarificationStep_limited (o : GenOracle) (meeting : Meeting)
    (participatingRoles : List String) (messages : List Message)
    (analysis : Option ParsedAnalysis) (nowId nowTs : String)
    (hinv : ∀ m ∈ messages, msgLimited m) :
    ∀ r, brainClarificationStep o meeting participatingRoles messages
        nowId nowTs analysis = .ok r →
      ∀ m ∈ r, msgLimited m := by
  intro r hok m hm
  cases analysis with
  | none =>
    simp only [brainClarificationStep] at hok
    have := except_pure_ok hok
    subst this
    exact hinv m hm
  | some a =>
    simp only [brainClarificationStep] at hok
    by_cases hsi : a.shouldIntervene = true
    · rw [if_pos hsi] at hok
      cases hcr : a.clarificationRole with
      | none =>
        rw [hcr] at hok
        dsimp only at hok
        have := except_pure_ok hok
        subst this
        exact hinv m hm
      | some targetRole =>
        rw [hcr] at hok
        dsimp only at hok
        by_cases hnz : targetRole.data.length ≠ 0
        · rw [if_pos hnz] at hok
          by_cases hpart :
              participatingRoles.contains (jsUpperStr targetRole) = true
          · rw [if_pos hpart] at hok
            obtain ⟨clar, hclar, hpure2⟩ := except_bind_ok _ _ _ hok
            have := except_pure_ok hpure2
            subst this
            rcases List.mem_append.mp hm with hm | hm
            · exact hinv m hm
            · rcases List.mem_singleton.mp hm with rfl
              exact fun _ => getClarification_limited o meeting targetRole
                (a.clarificationQuestion.getD "undefined") nowId nowTs clar hclar
          · rw [if_neg hpart] at hok
            have := except_pure_ok hok
            subst this
            exact hinv m hm
        · rw [if_neg hnz] at hok
          have := except_pure_ok hok
          subst this
          exact hinv m hm
    · rw [if_neg hsi] at hok
      have := except_pure_ok hok
      subst this
      exact hinv m hm

theorem brainBody_limited (o : GenOracle) (meeting : Meeting)
    (nowId nowTs : String) :
    ∀ r, brainBody o meeting nowId nowTs = .ok r →
      ∀ m ∈ r.1, msgLimited m := by
  intro r hok m hm
  unfold brainBody at hok
  obtain ⟨resp, -, hrest⟩ := except_bind_ok _ _ _ hok
  obtain ⟨msgs2, hmsgs2, hpure⟩ := except_bind_ok _ _ _ hrest
  have := except_pure_ok hpure
  subst this
  refine brainClarificationStep_limited o meeting _ _
    (o.parseAnalysis resp.content) nowId nowTs ?_ msgs2 hmsgs2 m hm
  intro x hx
  rcases List.mem_singleton.mp hx with rfl
  exact fun _ => ⟨resp.content, rfl⟩

/-- **C10.**  Every role message any stage executor appends — issue
brief, department speeches, BRAIN intervention (including its fallback
and the clarification follow-up), summary, follow-up and decision — has
its content whitespace-normalized and truncated to at most
`speechCharLimit = 50` characters (it lies in the image of
`enforceSpeechLimit`, which equals normalize-then-truncate and is
length-bounded by 50), while the issue-brief and final-decision
artifacts retain the full generated text. -/
theorem speech_limit_enforced (o : GenOracle) (meeting : Meeting)
    (contextPackage : String × Nat) (nowId nowTs compressNow : String) :
    (∀ s : String,
        enforceSpeechLimit s
          = String.mk ((jsTrimL (collapseWs s.data)).take speechCharLimit)
        ∧ (enforceSpeechLimit s).data.length ≤ speechCharLimit)
    ∧ (∀ r, executeIssueBrief o meeting contextPackage nowId nowTs = .ok r →
        (∀ m ∈ r.1, msgLimited m)
        ∧ ∃ prompts resp, o.complete "prime" prompts = .ok resp
            ∧ r.2.1.background = resp.content
            ∧ r.1.map (fun m => m.content) = [enforceSpeechLimit resp.content])
    ∧ (∀ r, executeDepartmentSpeeches o meeting nowId nowTs compressNow = .ok r →
        ∀ m ∈ r.1, msgLimited m)
    ∧ (∀ m ∈ (executeBrainIntervention o meeting nowId nowTs).1, msgLimited m)
    ∧ (∀ role question r,
        getClarification o meeting role question nowId nowTs = .ok r →
          speechLimited r.1.content)
    ∧ (∀ r, executePrimeSummary o meeting nowId nowTs = .ok r →
        ∀ m ∈ r.1, msgLimited m)
    ∧ (∀ r, executeFollowUpDiscussion o meeting nowId nowTs = .ok r →
        ∀ m ∈ r.1, msgLimited m)
    ∧ (∀ r, executePrimeDecision o meeting nowId nowTs = .ok r →
        (∀ m ∈ r.1, msgLimited m)
        ∧ ∃ prompts resp, o.complete "prime" prompts = .ok resp
            ∧ r.2.1.decision = resp.content
            ∧ r.1.map (fun m => m.content) = [enforceSpeechLimit resp.content]) := by
  refine ⟨?_, ?_, ?_, ?_, ?_, ?_, ?_, ?_⟩
  · exact fun s => ⟨enforceSpeechLimit_eq s, enforceSpeechLimit_length s⟩
  · intro r hok
    unfold executeIssueBrief at hok
    obtain ⟨resp, hresp, hpure⟩ := except_bind_ok _ _ _ hok
    have := except_pure_ok hpure
    subst this
    refine ⟨?_, _, resp, hresp, rfl, rfl⟩
    intro m hm
    rcases List.mem_singleton.mp hm with rfl
    exact fun _ => ⟨resp.content, rfl⟩
  · intro r hok
    unfold executeDepartmentSpeeches at hok
    by_cases h0 : (o.shuffle (getDiscussionRoles meeting)).length = 0
    · rw [if_pos h0] at hok
      have := except_pure_ok hok
      subst this
      intro m hm
      rcases List.mem_singleton.mp hm with rfl
      exact fun hrole => absurd rfl hrole
    · rw [if_neg h0] at hok
      exact deptLoop_limited o meeting _ nowId nowTs _ [] _ (by simp) r hok
  · exact fun m hm => by
      unfold executeBrainIntervention at hm
      cases hb : brainBody o meeting nowId nowTs with
      | ok rb =>
        rw [hb] at hm
        exact brainBody_limited o meeting nowId nowTs rb hb m hm
      | error e =>
        rw [hb] at hm
        rcases List.mem_singleton.mp hm with rfl
        intro _
        refine ⟨"讨论已进行，进入总结阶段。", ?_⟩
        show ("讨论已进行，进入总结阶段。" : String)
          = enforceSpeechLimit "讨论已进行，进入总结阶段。"
        decide
  · exact fun role question r hok => getClarification_limited o meeting role question
      nowId nowTs r hok
  · intro r hok
    unfold executePrimeSummary at hok
    obtain ⟨resp, -, hpure⟩ := except_bind_ok _ _ _ hok
    have := except_pure_ok hpure
    subst this
    intro m hm
    rcases List.mem_singleton.mp hm with rfl
    exact fun _ => ⟨resp.content, rfl⟩
  · intro r hok
    unfold executeFollowUpDiscussion at hok
    by_cases h0 : (o.shuffle (getDiscussionRoles meeting)).length = 0
    · rw [if_pos h0] at hok
      have := except_pure_ok hok
      subst this
      intro m hm
      simp at hm
    · rw [if_neg h0] at hok
      exact followUpLoop_limited o meeting _ _ _ nowId nowTs _ [] _ (by simp) r hok
  · intro r hok
    unfold executePrimeDecision at hok
    obtain ⟨resp, hresp, hpure⟩ := except_bind_ok _ _ _ hok
    have := except_pure_ok hpure
    subst this
    refine ⟨?_, _, resp, hresp, rfl, rfl⟩
    intro m hm
    rcases List.mem_singleton.mp hm with rfl
    exact fun _ => ⟨resp.content, rfl⟩

/-- A concrete oracle whose generation calls always return the same
decision text. -/
def demoOracle : GenOracle :=
  { systemPrompt := fun _ => ""
    complete := fun _ _ => .ok { content := "决定：立即实施试点方案。" }
    parseAnalysis := fun _ => none
    shuffle := fun l => l
    stringifyAnalysis := fun _ => "" }

def demoMeeting : Meeting :=
  { id := "meet-4", topic := "试点", budget := JQ.lit 12000 1, usage := JQ.zero }

theorem speech_limit_enforced_witness :
    executePrimeDecision demoOracle demoMeeting "1" "t"
        = .ok ([{ id := "msg-1", timestamp := "t", role := "PRIME", type := .statement,
                  content := enforceSpeechLimit "决定：立即实施试点方案。" }],
               { decision := "决定：立即实施试点方案。"
                 reasoning := "基于各部门意见的综合决策"
                 nextSteps := [] },
               JQ.ofNat 3)
    ∧ speechLimited (enforceSpeechLimit "决定：立即实施试点方案。") := by
  constructor
  · rfl
  · exact ((speech_limit_enforced demoOracle demoMeeting ("", 0) "1" "t"
        "c").2.2.2.2.2.2.2
      ([{ id := "msg-1", timestamp := "t", role := "PRIME", type := .statement,
          content := enforceSpeechLimit "决定：立即实施试点方案。" }],
        { decision := "决定：立即实施试点方案。"
          reasoning := "基于各部门意见的综合决策"
          nextSteps := [] },
        JQ.ofNat 3) (by rfl)).1
      { id := "msg-1", timestamp := "t", role := "PRIME", type := .statement,
        content := enforceSpeechLimit "决定：立即实施试点方案。" }
      (by decide) (by decide)

end FlowControl

end MyCabinet
